import Mathlib

/-!
# Peer identifier registry and chunk persistence worker

A shallow embedding of

* `src/server.js`: the three places that touch the table `active_ids`
  (the `disconnect` listener, `GET /generate-id`, `GET /check-id/:id`);
* `src/public/db-worker.js`: `openDatabase`, `saveChunk` and `self.onmessage`.

The PostgreSQL pool, `Math.random`, the validator chain of `express-validator`
and IndexedDB are collaborators of the code; each is represented by the
answers it gives to the code.

The two routes are registered at the application root, as `/generate-id` and
`/check-id/:id` (the comments of lines 55 and 80 place them under `/peerjs/myapp`). The
rate limiter of lines 16 to 21 runs before the handlers and is not modelled; its window
is 15 minutes and its quota 100 requests for each address (the comments of lines 17 and
18 say 10 minutes and 20 requests).
-/

namespace Server

/-! ## The pool -/

/-- A statement sent through `pool.query`; one constructor for each of the three
statements of `src/server.js` on the table `active_ids`. -/
inductive Query where
  | insert (peerId : String)
  | delete (peerId : String)
  | select (peerId : String)
  deriving DecidableEq, Repr

/-- What `await pool.query(...)` gives back: the result rows, or a thrown error of which
the handlers read only the property `code` (absent on errors that do not come from
the database server). -/
inductive QueryResult where
  | rows (rs : List String)
  | error (code : Option String)
  deriving DecidableEq, Repr

/-- The pool seen from the handlers: a state and the answer to each statement. -/
structure Pool (σ : Type) where
  query : σ → Query → σ × QueryResult

/-- The table `active_ids` of a database that answers every statement: `peer_id` is the
primary key (line 64 of `src/server.js`), so an insert of a value already present fails
with SQLSTATE 23505 and changes nothing. -/
def activeIds : Pool (List String) where
  query rows q :=
    match q with
    | .insert peerId =>
      if peerId ∈ rows then (rows, .error (some "23505")) else (rows ++ [peerId], .rows [])
    | .delete peerId => (rows.filter (fun x => x ≠ peerId), .rows [])
    | .select peerId => (rows, .rows (rows.filter (fun x => x = peerId)))

/-- A pool that replays a fixed list of answers, one for each statement it receives
(an exhausted list answers with a connection error). -/
def scripted : Pool (List QueryResult) where
  query outs _ :=
    match outs with
    | [] => ([], .error none)
    | o :: os => (os, o)

/-! ## Responses -/

/-- One entry of `errors.array()` of `express-validator`. -/
structure ValidationError where
  value : String
  msg : String
  path : String
  location : String
  deriving DecidableEq, Repr

/-- The bodies the handlers send, with the status code. -/
inductive Response where
  | id (newId : String)
  | idExists (b : Bool)
  | error (status : Nat) (error : String)
  | errors (status : Nat) (errors : List ValidationError)
  deriving DecidableEq, Repr

/-- A handler run: what it answered, the pool state it left, the statements it sent. -/
structure Handled (σ : Type) (ρ : Type) where
  response : ρ
  store : σ
  queries : List Query
  deriving DecidableEq

/-! ## `GET /generate-id` -/

/-! ### Numbers

The numbers of JavaScript are binary64 values. The values met in line 62 are
non-negative and below `2 ^ 20`; they are represented by the rationals they denote, and
each arithmetic operation rounds its exact result to binary64. -/

/-- The nearest integer, ties to the even one. -/
def roundHalfEven (q : ℚ) : Int :=
  if q - ⌊q⌋ < 1 / 2 then ⌊q⌋
  else if 1 / 2 < q - ⌊q⌋ then ⌊q⌋ + 1
  else if ⌊q⌋ % 2 = 0 then ⌊q⌋ else ⌊q⌋ + 1

/-- The distance between the binary64 values around a non-negative `x`: 53 significant
bits, and the fixed spacing of the subnormal numbers below `2 ^ (-1022)`. -/
def ulp (x : ℚ) : ℚ := (2 : ℚ) ^ (max (Int.log 2 x) (-1022) - 52)

/-- The binary64 value of a non-negative rational far below the overflow threshold:
round to nearest, ties to even, the rounding of `*` and `+`. -/
def binary64 (x : ℚ) : ℚ := roundHalfEven (x / ulp x) * ulp x

/-- A value of `Math.random()`: a binary64 number `r` with `0 ≤ r < 1`. These are the
numbers `mantissa / 2 ^ exponent` with a mantissa of at most 53 bits and an exponent
from 53 to 1074. -/
structure Draw where
  mantissa : Nat
  exponent : Nat
  mantissa_lt : mantissa < 2 ^ 53
  exponent_ge : 53 ≤ exponent
  exponent_le : exponent ≤ 1074

/-- The number a draw denotes. -/
def Draw.val (r : Draw) : ℚ := (r.mantissa : ℚ) / 2 ^ r.exponent

/-- The number `Math.floor(100000 + Math.random() * 900000)` of line 62: the product is
rounded, the sum is rounded, the floor is exact. -/
def candidate (r : Draw) : Int := ⌊binary64 (100000 + binary64 (r.val * 900000))⌋

/-- The formula of line 62 in exact arithmetic, for any number `r`. -/
def exactCandidate (r : ℚ) : Int := ⌊(100000 : ℚ) + r * 900000⌋

/-- The string `newId` of line 62: the candidate rendered by `.toString()`. -/
def newId (r : Draw) : String := toString (candidate r)

/-- The draw 0, the least value of `Math.random()`. -/
def drawZero : Draw := ⟨0, 53, by norm_num, by norm_num, by norm_num⟩

/-- The draw 1/2. -/
def drawHalf : Draw := ⟨2 ^ 52, 53, by norm_num, by norm_num, by norm_num⟩

/-- The draw `1 - 2 ^ (-53)`, the greatest value of `Math.random()`. -/
def drawTop : Draw := ⟨2 ^ 53 - 1, 53, by norm_num, by norm_num, by norm_num⟩

/-- How one pass through the body of the `while` loop (lines 62 to 70) ends. -/
inductive Attempt where
  | inserted (newId : String)
  | collision
  | thrown (code : Option String)
  deriving DecidableEq, Repr

/-- One pass through the loop body: draw, insert, and on an error compare its code
with 23505 (line 69). -/
def attempt {σ : Type} (P : Pool σ) (s : σ) (r : Draw) : σ × Attempt :=
  match P.query s (.insert (newId r)) with
  | (s', .rows _) => (s', .inserted (newId r))
  | (s', .error code) => if code ≠ some "23505" then (s', .thrown code) else (s', .collision)

/-- The loop of lines 61 to 71 with the two `response` calls, run on the given draws.
`none` as response: the draws are used up and the loop is still running. `qs` are the
statements sent so far. -/
def generateIdLoop {σ : Type} (P : Pool σ) : List Draw → σ → List Query → Handled σ (Option Response)
  | [], s, qs => ⟨none, s, qs⟩
  | r :: rs, s, qs =>
    match attempt P s r with
    | (s', .inserted peerId) => ⟨some (.id peerId), s', qs ++ [.insert peerId]⟩
    | (s', .thrown _) =>
      ⟨some (.error 500 "Could not generate an ID."), s', qs ++ [.insert (newId r)]⟩
    | (s', .collision) => generateIdLoop P rs s' (qs ++ [.insert (newId r)])

/-- The handler of `GET /generate-id` (lines 56 to 78). -/
def generateId {σ : Type} (P : Pool σ) (draws : List Draw) (s : σ) : Handled σ (Option Response) :=
  generateIdLoop P draws s []

/-! ## `GET /check-id/:id` -/

/-- Whether a character is one of the variation selectors U+FE0E and U+FE0F, which
`isLength` leaves out of its count. -/
def isPresentationSelector (c : Char) : Bool :=
  c == Char.ofNat 0xFE0F || c == Char.ofNat 0xFE0E

/-- The validator `isLength` with bounds `min` and `max`: validator.js counts
`str.length` less the surrogate pairs, that is the code points of the string, less the
variation selectors U+FE0E and U+FE0F. -/
def isLength (str : String) (min max : Nat) : Bool :=
  decide (min ≤ str.length - (str.data.filter isPresentationSelector).length) &&
    decide (str.length - (str.data.filter isPresentationSelector).length ≤ max)

/-- Digits after an optional integer part and point: the part `([0-9]*[.])?[0-9]+` of the
pattern of `isNumeric`, anchored at both ends. -/
def isUnsignedNumeric (cs : List Char) : Bool :=
  match cs.dropWhile Char.isDigit with
  | [] => !cs.isEmpty
  | c :: t => c == '.' && !t.isEmpty && t.all Char.isDigit

/-- The validator `isNumeric` called without options, as in line 81: validator.js tests
the string against `^[+-]?([0-9]*[.])?[0-9]+$` (only the option `no_symbols` restricts
it to `^[0-9]+$`). -/
def isNumeric (str : String) : Bool :=
  match str.data with
  | '+' :: t => isUnsignedNumeric t
  | '-' :: t => isUnsignedNumeric t
  | cs => isUnsignedNumeric cs

/-- The list `errors.array()` after the chain `param('id').isLength(6, 6).isNumeric()`
of line 81: one entry for each validator that fails. -/
def validationErrors (id : String) : List ValidationError :=
  (if isLength id 6 6 then [] else [⟨id, "Invalid value", "id", "params"⟩]) ++
  (if isNumeric id then [] else [⟨id, "Invalid value", "id", "params"⟩])

/-- The handler of `GET /check-id/:id` (lines 81 to 96). -/
def checkId {σ : Type} (P : Pool σ) (s : σ) (id : String) : Handled σ Response :=
  let errors := validationErrors id
  if !errors.isEmpty then ⟨.errors 400 errors, s, []⟩
  else
    match P.query s (.select id) with
    | (s', .rows rows) => ⟨.idExists (decide (rows.length > 0)), s', [.select id]⟩
    | (s', .error _) => ⟨.error 500 "Could not check ID.", s', [.select id]⟩

/-! ## The `disconnect` listener -/

/-- The line the listener writes to the log. -/
inductive LogLine where
  | info (peerId : String)
  | error (peerId : String) (code : Option String)
  deriving DecidableEq, Repr

/-- The listener of `disconnect` (lines 40 to 48). The response is how the listener
ends: `.ok` with the log line written when it completes, `.error` for an exception that
leaves it. Both arms of its `try`/`catch` complete. -/
def onDisconnect {σ : Type} (P : Pool σ) (s : σ) (peerId : String) :
    Handled σ (Except (Option String) LogLine) :=
  match P.query s (.delete peerId) with
  | (s', .rows _) => ⟨.ok (.info peerId), s', [.delete peerId]⟩
  | (s', .error code) => ⟨.ok (.error peerId code), s', [.delete peerId]⟩

/-- Exactly six decimal digits: the identifier format of the registry. -/
def isSixDigits (id : String) : Bool :=
  decide (id.length = 6) && id.data.all Char.isDigit

/-! ## Requests running side by side

The handlers hold no state of their own: a request of `GET /generate-id` meets the
others only in the pool, one statement at a time. -/

/-- One statement of the registry on the pool: a pass of some request through the loop
body of `GET /generate-id`, or a run of the `disconnect` listener. -/
inductive Op where
  | attempt (r : Draw)
  | release (peerId : String)

/-- The pool state after one such statement. -/
def applyOp {σ : Type} (P : Pool σ) (s : σ) : Op → σ
  | .attempt r => (attempt P s r).1
  | .release peerId => (onDisconnect P s peerId).store

/-- The pool state after a sequence of such statements. -/
def applyOps {σ : Type} (P : Pool σ) (s : σ) (ops : List Op) : σ :=
  ops.foldl (applyOp P) s

/-- A request of `GET /generate-id` in flight: still in its loop with the draws it has
left, or answered. -/
inductive Request where
  | running (draws : List Draw)
  | responded (response : Response)

/-- The next pass of a request through its loop body (nothing when it has answered or
has no draw left). -/
def stepRequest {σ : Type} (P : Pool σ) (s : σ) : Request → σ × Request
  | .running [] => (s, .running [])
  | .running (r :: rs) =>
    match attempt P s r with
    | (s', .inserted peerId) => (s', .responded (.id peerId))
    | (s', .thrown _) => (s', .responded (.error 500 "Could not generate an ID."))
    | (s', .collision) => (s', .running rs)
  | .responded response => (s, .responded response)

/-- Two requests whose passes are interleaved by a schedule: `true` lets the first
request make its next pass, `false` the second. -/
def interleave {σ : Type} (P : Pool σ) : List Bool → σ → Request → Request → σ × Request × Request
  | [], s, a, b => (s, a, b)
  | true :: sch, s, a, b => interleave P sch (stepRequest P s a).1 (stepRequest P s a).2 b
  | false :: sch, s, a, b => interleave P sch (stepRequest P s b).1 a (stepRequest P s b).2

/-- Two requests side by side: an identifier answered is live, and two identifiers
answered differ. -/
def Apart (rows : List String) (a b : Request) : Prop :=
  (∀ id, a = .responded (.id id) → id ∈ rows) ∧
  (∀ id, b = .responded (.id id) → id ∈ rows) ∧
  (∀ i j, a = .responded (.id i) → b = .responded (.id j) → i ≠ j)

/-- Whether a pool answer is the uniqueness violation the loop retries on. -/
def isCollision : QueryResult → Bool
  | .error code => decide (code = some "23505")
  | .rows _ => false

/-- The handler of `/generate-id` run on a list of rounds, each a draw and the answer the
pool gives to the insert of its candidate. -/
def generateIdOn (rounds : List (Draw × QueryResult)) : Handled (List QueryResult) (Option Response) :=
  generateId scripted (rounds.map Prod.fst) (rounds.map Prod.snd)

/-- The inserts sent for a list of draws, in order. -/
def insertsOf (draws : List Draw) : List Query :=
  draws.map (fun r => Query.insert (newId r))

end Server

namespace DbWorker

/-! ## The worker of `src/public/db-worker.js`

The worker is single-threaded: between two returns to the event loop its code runs
without interruption. Its callbacks are the transitions of a machine whose events are
the deliveries the event loop makes: a message of the page, the answer of IndexedDB to
an open request, the answer to an add request. -/

/-- The value `event.data` of a message of the page. -/
structure Chunk where
  fileName : String
  index : Nat
  payload : List Nat
  deriving DecidableEq, Repr

/-- An object handed to `self.postMessage`; a property the object literal does not have
is `none`. -/
structure SaveResult where
  success : Bool
  fileName : Option String
  index : Option Nat
  error : Option String
  deriving DecidableEq, Repr

/-- The worker between two events. `db` is the variable of line 1 (a handle is a
number). `opening` are the requests of `indexedDB.open` not yet answered, oldest first,
each with the chunk whose `saveChunk` awaits it; `adding` are the requests of
`store.add` not yet answered, oldest first, each with the handle its transaction was
made on. `stored` are the records of the object store `fileChunks`, `posted` the
messages posted so far, `opens` the number of calls of `indexedDB.open`. -/
structure Worker where
  db : Option Nat
  opening : List Chunk
  adding : List (Nat × Chunk)
  stored : List Chunk
  posted : List SaveResult
  opens : Nat
  deriving DecidableEq, Repr

/-- The worker when its script has been loaded, over an object store holding `stored`. -/
def init (stored : List Chunk) : Worker :=
  ⟨none, [], [], stored, [], 0⟩

/-- A delivery of the event loop. `startError` is the error, if any, that
`database.transaction`, `transaction.objectStore` or `store.add` throws when lines 26
to 28 run; `i` is the position of the answered request among those pending. -/
inductive Event where
  | message (chunk : Chunk) (startError : Option String)
  | openSuccess (i : Nat) (handle : Nat) (startError : Option String)
  | openError (i : Nat) (error : String)
  | addSuccess (i : Nat)
  | addError (i : Nat) (error : String)
  deriving DecidableEq, Repr

/-- The first chunk of a file `a.bin`. -/
def chunkA0 : Chunk := ⟨"a.bin", 0, [1, 2]⟩

/-- The second chunk of the file. -/
def chunkA1 : Chunk := ⟨"a.bin", 1, [3, 4]⟩

/-- The third chunk of the file. -/
def chunkA2 : Chunk := ⟨"a.bin", 2, [5]⟩

/-- The message of line 43. -/
def successResult (chunk : Chunk) : SaveResult :=
  ⟨true, some chunk.fileName, some chunk.index, none⟩

/-- The message of line 45; `error` is `error.message`. -/
def failureResult (error : String) : SaveResult :=
  ⟨false, none, none, some error⟩

/-- The call `self.postMessage(m)`. -/
def postMessage (w : Worker) (m : SaveResult) : Worker :=
  { w with posted := w.posted ++ [m] }

/-- The synchronous part of `openDatabase` (lines 3 to 6) for the save of `chunk`: with
`db` set the promise resolves to it; otherwise `indexedDB.open` is called and the
promise stays pending. -/
def openDatabase (w : Worker) (chunk : Chunk) : Worker × Option Nat :=
  match w.db with
  | some handle => (w, some handle)
  | none => ({ w with opening := w.opening ++ [chunk], opens := w.opens + 1 }, none)

/-- The part of `saveChunk` after `await openDatabase()` (lines 26 to 33) on the handle
`database`: an error thrown there rejects the promise, so that `self.onmessage` posts
the failure message; otherwise the add request is pending. -/
def saveChunk (w : Worker) (database : Nat) (chunk : Chunk) (startError : Option String) :
    Worker :=
  match startError with
  | some error => postMessage w (failureResult error)
  | none => { w with adding := w.adding ++ [(database, chunk)] }

/-- One delivery; `none` when the event answers a request that is not pending. -/
def step (w : Worker) : Event → Option Worker
  | .message chunk startError =>
    match openDatabase w chunk with
    | (w', some database) => some (saveChunk w' database chunk startError)
    | (w', none) => some w'
  | .openSuccess i handle startError =>
    match w.opening[i]? with
    | none => none
    | some chunk =>
      some (saveChunk { w with db := some handle, opening := w.opening.eraseIdx i }
        handle chunk startError)
  | .openError i error =>
    match w.opening[i]? with
    | none => none
    | some _ => some (postMessage { w with opening := w.opening.eraseIdx i } (failureResult error))
  | .addSuccess i =>
    match w.adding[i]? with
    | none => none
    | some (_, chunk) =>
      some (postMessage { w with adding := w.adding.eraseIdx i, stored := w.stored ++ [chunk] }
        (successResult chunk))
  | .addError i error =>
    match w.adding[i]? with
    | none => none
    | some _ => some (postMessage { w with adding := w.adding.eraseIdx i } (failureResult error))

/-- A sequence of deliveries. -/
def run (w : Worker) : List Event → Option Worker
  | [] => some w
  | e :: es =>
    match step w e with
    | none => none
    | some w' => run w' es

/-- The saves started and not yet resolved. -/
def outstanding (w : Worker) : List Chunk :=
  w.adding.map Prod.snd ++ w.opening

/-- The chunks of the messages of a sequence of deliveries, in order of arrival. -/
def delivered : List Event → List Chunk
  | [] => []
  | .message chunk _ :: es => chunk :: delivered es
  | _ :: es => delivered es

/-! ## One save at a time -/

/-- How IndexedDB treats one save: the answer to the open request (asked only when `db`
is unset), the error thrown when the transaction and the add are set up, the error of
the add request. -/
structure Behaviour where
  openResult : Except String Nat
  startError : Option String
  addError : Option String

/-- The answer to the add request of a save, when one was made. -/
def addEvents (w : Worker) (b : Behaviour) : List Event :=
  match b.startError with
  | some _ => []
  | none =>
    match b.addError with
    | none => [.addSuccess w.adding.length]
    | some error => [.addError w.adding.length error]

/-- The deliveries of one save that resolves before anything else is delivered: the
message, then the answers to the requests this save makes. -/
def saveEvents (w : Worker) (chunk : Chunk) (b : Behaviour) : List Event :=
  .message chunk b.startError ::
    match w.db with
    | some _ => addEvents w b
    | none =>
      match b.openResult with
      | .error error => [.openError w.opening.length error]
      | .ok handle => .openSuccess w.opening.length handle b.startError :: addEvents w b

/-- The error with which a save under `b` fails in `w`; `none` when it succeeds. -/
def failure (w : Worker) (b : Behaviour) : Option String :=
  match w.db, b.openResult with
  | none, .error error => some error
  | _, _ =>
    match b.startError with
    | some error => some error
    | none => b.addError

/-- The chunk whose save a delivery makes fail in `w`, and the error text: the add
cannot be set up (lines 26 to 28 throw, at the message when `db` is set, or right after
the success of the save's own open request), the open request of the save fails, or its
add request fails. `none` for every other delivery. -/
def failing (w : Worker) : Event → Option (Chunk × String)
  | .message chunk (some error) =>
    match w.db with
    | some _ => some (chunk, error)
    | none => none
  | .openSuccess i _ (some error) => w.opening[i]?.map (fun chunk => (chunk, error))
  | .openError i error => w.opening[i]?.map (fun chunk => (chunk, error))
  | .addError i error => w.adding[i]?.map (fun p => (p.2, error))
  | _ => none

/-- The pending open requests and add requests of `w` without the one a delivery answers:
the requests of all other saves, each as it was and in the same order. -/
def remaining (w : Worker) : Event → List Chunk × List (Nat × Chunk)
  | .message _ _ => (w.opening, w.adding)
  | .openSuccess i _ _ => (w.opening.eraseIdx i, w.adding)
  | .openError i _ => (w.opening.eraseIdx i, w.adding)
  | .addSuccess i => (w.opening, w.adding.eraseIdx i)
  | .addError i _ => (w.opening, w.adding.eraseIdx i)

/-- A delivery of a run in which every request succeeds and IndexedDB answers its open
requests and its add requests oldest first, and no message arrives while `db` is set
and an open request is still pending. -/
def orderlyEvent (w : Worker) : Event → Bool
  | .message _ startError => (w.db.isNone || w.opening.isEmpty) && startError.isNone
  | .openSuccess i _ startError => i == 0 && startError.isNone
  | .addSuccess i => i == 0
  | _ => false

/-- A run of such deliveries. -/
def orderly (w : Worker) : List Event → Bool
  | [] => true
  | e :: es =>
    orderlyEvent w e &&
      match step w e with
      | none => false
      | some w' => orderly w' es

end DbWorker

/-! # The registry: proofs -/

namespace Server

/-! ## The format of a generated identifier -/

theorem toDigitsCore_step (fuel n : Nat) (ds : List Char) :
    Nat.toDigitsCore 10 (fuel + 1) n ds =
      if n / 10 = 0 then Nat.digitChar (n % 10) :: ds
      else Nat.toDigitsCore 10 fuel (n / 10) (Nat.digitChar (n % 10) :: ds) := by
  simp [Nat.toDigitsCore]

/-- The decimal rendering of a number between 100000 and 999999, digit by digit. -/
theorem repr_six (n : Nat) (h1 : 100000 ≤ n) (h2 : n ≤ 999999) :
    (Nat.repr n).data = [Nat.digitChar (n / 100000), Nat.digitChar (n / 10000 % 10),
      Nat.digitChar (n / 1000 % 10), Nat.digitChar (n / 100 % 10),
      Nat.digitChar (n / 10 % 10), Nat.digitChar (n % 10)] := by
  obtain ⟨m, rfl⟩ : ∃ m, n = m + 6 := ⟨n - 6, by omega⟩
  have e : m + 6 + 1 = (m + 1) + 1 + 1 + 1 + 1 + 1 + 1 := by omega
  simp only [Nat.repr, Nat.toDigits, List.asString, e, toDigitsCore_step]
  have a1 : ¬ (m + 6) / 10 = 0 := by omega
  have a2 : ¬ (m + 6) / 10 / 10 = 0 := by omega
  have a3 : ¬ (m + 6) / 10 / 10 / 10 = 0 := by omega
  have a4 : ¬ (m + 6) / 10 / 10 / 10 / 10 = 0 := by omega
  have a5 : ¬ (m + 6) / 10 / 10 / 10 / 10 / 10 = 0 := by omega
  have a6 : (m + 6) / 10 / 10 / 10 / 10 / 10 / 10 = 0 := by omega
  simp only [a1, a2, a3, a4, a5, a6, if_true, if_false]
  have b1 : (m + 6) / 10 / 10 / 10 / 10 / 10 % 10 = (m + 6) / 100000 := by omega
  have b2 : (m + 6) / 10 / 10 / 10 / 10 % 10 = (m + 6) / 10000 % 10 := by omega
  have b3 : (m + 6) / 10 / 10 / 10 % 10 = (m + 6) / 1000 % 10 := by omega
  have b4 : (m + 6) / 10 / 10 % 10 = (m + 6) / 100 % 10 := by omega
  rw [b1, b2, b3, b4]

theorem digitChar_isDigit : ∀ d : Nat, d < 10 → (Nat.digitChar d).isDigit = true := by
  decide

theorem digitChar_ne_zero : ∀ d : Nat, 1 ≤ d → d < 10 → Nat.digitChar d ≠ '0' := by
  decide

/-! ### Rounding -/

theorem roundHalfEven_ge (q : ℚ) (a : ℤ) (h : (a : ℚ) ≤ q) : a ≤ roundHalfEven q := by
  have h1 : a ≤ ⌊q⌋ := Int.le_floor.mpr h
  unfold roundHalfEven
  split_ifs <;> omega

theorem roundHalfEven_le (q : ℚ) (b : ℤ) (h : q ≤ (b : ℚ)) : roundHalfEven q ≤ b := by
  have h1 : ⌊q⌋ ≤ b := by
    have := Int.floor_le q
    exact_mod_cast this.trans h
  by_cases hf : q - ⌊q⌋ < 1 / 2
  · simp only [roundHalfEven, hf, if_true]
    exact h1
  · have h2 : ⌊q⌋ < b := by
      rcases lt_or_eq_of_le h1 with h3 | h3
      · exact h3
      · exfalso
        apply hf
        have : q ≤ (⌊q⌋ : ℚ) := by rw [h3]; exact h
        linarith
    unfold roundHalfEven
    split_ifs <;> omega

theorem ulp_pos (x : ℚ) : 0 < ulp x := by
  unfold ulp
  positivity

theorem log_le_of_lt (x : ℚ) (n : ℤ) (h : x < (2 : ℚ) ^ n) : Int.log 2 x < n ∨ Int.log 2 x = 0 := by
  by_cases hx : 0 < x
  · left
    exact (Int.lt_zpow_iff_log_lt (by norm_num) hx).mp (by exact_mod_cast h)
  · right
    exact Int.log_of_right_le_zero 2 (not_lt.mp hx)

theorem ulp_grid (x : ℚ) (h : x < 2 ^ 20) : ∃ k : ℕ, (2 : ℚ) ^ (-33 : ℤ) = 2 ^ k * ulp x := by
  have hlog : Int.log 2 x ≤ 19 := by
    rcases log_le_of_lt x 20 (by exact_mod_cast h) with h1 | h1 <;> omega
  have he : max (Int.log 2 x) (-1022) - 52 ≤ -33 := by
    have : max (Int.log 2 x) (-1022) ≤ 19 := max_le hlog (by norm_num)
    omega
  refine ⟨(-33 - (max (Int.log 2 x) (-1022) - 52)).toNat, ?_⟩
  unfold ulp
  rw [← zpow_natCast, ← zpow_add₀ (by norm_num : (2 : ℚ) ≠ 0)]
  congr 1
  rw [Int.toNat_of_nonneg (by omega)]
  ring

theorem binary64_grid (x : ℚ) (h : x < 2 ^ 20) (a : ℤ) :
    ((a : ℚ) * 2 ^ (-33 : ℤ) ≤ x → (a : ℚ) * 2 ^ (-33 : ℤ) ≤ binary64 x) ∧
    (x ≤ (a : ℚ) * 2 ^ (-33 : ℤ) → binary64 x ≤ (a : ℚ) * 2 ^ (-33 : ℤ)) := by
  obtain ⟨k, hk⟩ := ulp_grid x h
  have hu := ulp_pos x
  have e : (a : ℚ) * 2 ^ (-33 : ℤ) = ((a * 2 ^ k : ℤ) : ℚ) * ulp x := by
    rw [hk]; push_cast; ring
  rw [e]
  unfold binary64
  constructor
  · intro hx
    have : ((a * 2 ^ k : ℤ) : ℚ) ≤ x / ulp x := (le_div_iff₀ hu).mpr hx
    have := roundHalfEven_ge _ _ this
    exact mul_le_mul_of_nonneg_right (by exact_mod_cast this) hu.le
  · intro hx
    have : x / ulp x ≤ ((a * 2 ^ k : ℤ) : ℚ) := (div_le_iff₀ hu).mpr hx
    have := roundHalfEven_le _ _ this
    exact mul_le_mul_of_nonneg_right (by exact_mod_cast this) hu.le

theorem binary64_of_grid (a : ℤ) (h : (a : ℚ) * 2 ^ (-33 : ℤ) < 2 ^ 20) :
    binary64 ((a : ℚ) * 2 ^ (-33 : ℤ)) = (a : ℚ) * 2 ^ (-33 : ℤ) := by
  obtain ⟨h1, h2⟩ := binary64_grid _ h a
  exact le_antisymm (h2 le_rfl) (h1 le_rfl)

theorem roundHalfEven_intCast (n : ℤ) : roundHalfEven (n : ℚ) = n := by
  simp [roundHalfEven]

theorem log_eq_of_mem (x : ℚ) (n : ℤ) (h1 : (2 : ℚ) ^ n ≤ x) (h2 : x < 2 ^ (n + 1)) :
    Int.log 2 x = n := by
  have hx : 0 < x := lt_of_lt_of_le (by positivity) h1
  have a : n ≤ Int.log 2 x := (Int.zpow_le_iff_le_log (by norm_num) hx).mp (by exact_mod_cast h1)
  have b : Int.log 2 x < n + 1 := (Int.lt_zpow_iff_log_lt (by norm_num) hx).mp (by exact_mod_cast h2)
  omega

theorem ulp_eq_of_mem (x : ℚ) (n : ℤ) (hn : -1022 ≤ n) (h1 : (2 : ℚ) ^ n ≤ x)
    (h2 : x < 2 ^ (n + 1)) : ulp x = 2 ^ (n - 52) := by
  unfold ulp
  rw [log_eq_of_mem x n h1 h2, max_eq_left hn]

/-- Products that round to the value just below 900000. -/
theorem binary64_below_900000 (x : ℚ) (h0 : 0 ≤ x)
    (h : x ≤ 900000 - 900000 * 2 ^ (-53 : ℤ)) :
    0 ≤ binary64 x ∧ binary64 x ≤ 900000 - 2 ^ (-33 : ℤ) := by
  have hlt : x < 2 ^ 20 := by
    have : (0 : ℚ) < 900000 * 2 ^ (-53 : ℤ) := by positivity
    have : (900000 : ℚ) < 2 ^ 20 := by norm_num
    linarith
  constructor
  · have := (binary64_grid x hlt 0).1
    simpa using this (by simpa using h0)
  · have eN : (900000 : ℚ) - 2 ^ (-33 : ℤ) = ((900000 * 2 ^ 33 - 1 : ℤ) : ℚ) * 2 ^ (-33 : ℤ) := by
      norm_num
    by_cases hx : x ≤ 900000 - 2 ^ (-33 : ℤ)
    · rw [eN] at hx ⊢
      exact (binary64_grid x hlt _).2 hx
    · have hx : 900000 - 2 ^ (-33 : ℤ) < x := not_le.mp hx
      have hu : ulp x = 2 ^ (-33 : ℤ) := by
        have := ulp_eq_of_mem x 19 (by norm_num) (by norm_num at hx ⊢; linarith)
          (by norm_num at hlt ⊢; linarith)
        simpa using this
      have hq1 : ((900000 * 2 ^ 33 - 1 : ℤ) : ℚ) ≤ x / 2 ^ (-33 : ℤ) := by
        rw [le_div_iff₀ (by positivity), ← eN]
        exact hx.le
      have hq2 : x / 2 ^ (-33 : ℤ) < ((900000 * 2 ^ 33 - 1 : ℤ) : ℚ) + 1 / 2 := by
        rw [div_lt_iff₀ (by positivity)]
        norm_num at h ⊢
        linarith
      have hfl : ⌊x / 2 ^ (-33 : ℤ)⌋ = 900000 * 2 ^ 33 - 1 := by
        rw [Int.floor_eq_iff]
        exact ⟨hq1, by linarith⟩
      have hr : roundHalfEven (x / 2 ^ (-33 : ℤ)) = 900000 * 2 ^ 33 - 1 := by
        have : x / 2 ^ (-33 : ℤ) - ⌊x / 2 ^ (-33 : ℤ)⌋ < 1 / 2 := by
          rw [hfl]
          linarith
        unfold roundHalfEven
        rw [if_pos this, hfl]
      unfold binary64
      rw [hu, hr, eN]

/-! ### The range of the candidate -/

theorem Draw.val_nonneg (r : Draw) : 0 ≤ r.val := by
  unfold Draw.val
  positivity

theorem Draw.le_pred_one (r : Draw) : r.val ≤ 1 - 2 ^ (-53 : ℤ) := by
  have h1 : (r.mantissa : ℚ) ≤ 2 ^ 53 - 1 := by
    have := r.mantissa_lt
    have h : r.mantissa ≤ 2 ^ 53 - 1 := by omega
    have h2 : ((r.mantissa : ℕ) : ℚ) ≤ ((2 ^ 53 - 1 : ℕ) : ℚ) := by exact_mod_cast h
    norm_num at h2 ⊢
    exact h2
  have h2 : (2 : ℚ) ^ 53 ≤ 2 ^ r.exponent := pow_le_pow_right₀ (by norm_num) r.exponent_ge
  have h3 : (0 : ℚ) < 2 ^ 53 := by positivity
  unfold Draw.val
  calc (r.mantissa : ℚ) / 2 ^ r.exponent ≤ (r.mantissa : ℚ) / 2 ^ 53 :=
        div_le_div_of_nonneg_left (by positivity) h3 h2
    _ ≤ (2 ^ 53 - 1) / 2 ^ 53 := div_le_div_of_nonneg_right h1 h3.le
    _ = 1 - 2 ^ (-53 : ℤ) := by norm_num

theorem Draw.val_lt_one (r : Draw) : r.val < 1 := by
  have := r.le_pred_one
  have : (0 : ℚ) < 2 ^ (-53 : ℤ) := by positivity
  linarith

theorem product_bounds (r : Draw) :
    0 ≤ binary64 (r.val * 900000) ∧ binary64 (r.val * 900000) ≤ 900000 - 2 ^ (-33 : ℤ) := by
  apply binary64_below_900000
  · have := r.val_nonneg
    positivity
  · have := r.le_pred_one
    linarith

theorem sum_bounds (r : Draw) :
    100000 ≤ binary64 (100000 + binary64 (r.val * 900000)) ∧
    binary64 (100000 + binary64 (r.val * 900000)) ≤ 1000000 - 2 ^ (-33 : ℤ) := by
  obtain ⟨h0, h1⟩ := product_bounds r
  have hlt : 100000 + binary64 (r.val * 900000) < 2 ^ 20 := by
    have : (0 : ℚ) < 2 ^ (-33 : ℤ) := by positivity
    have : (1000000 : ℚ) < 2 ^ 20 := by norm_num
    linarith
  have eA : (100000 : ℚ) = ((100000 * 2 ^ 33 : ℤ) : ℚ) * 2 ^ (-33 : ℤ) := by norm_num
  have eB : (1000000 : ℚ) - 2 ^ (-33 : ℤ) = ((1000000 * 2 ^ 33 - 1 : ℤ) : ℚ) * 2 ^ (-33 : ℤ) := by
    norm_num
  constructor
  · have := (binary64_grid _ hlt (100000 * 2 ^ 33)).1
    rw [← eA] at this
    exact this (by linarith)
  · have := (binary64_grid _ hlt (1000000 * 2 ^ 33 - 1)).2
    rw [← eB] at this
    exact this (by linarith)

theorem candidate_bounds (r : Draw) : 100000 ≤ candidate r ∧ candidate r ≤ 999999 := by
  obtain ⟨h0, h1⟩ := sum_bounds r
  constructor
  · apply Int.le_floor.mpr
    push_cast
    exact h0
  · have : candidate r < 1000000 := by
      apply Int.floor_lt.mpr
      push_cast
      have : (0 : ℚ) < 2 ^ (-33 : ℤ) := by positivity
      linarith
    omega

theorem exactCandidate_bounds (r : ℚ) (h0 : 0 ≤ r) (h1 : r < 1) :
    100000 ≤ exactCandidate r ∧ exactCandidate r ≤ 999999 := by
  constructor
  · apply Int.le_floor.mpr
    push_cast
    nlinarith
  · have : exactCandidate r < 1000000 := by
      apply Int.floor_lt.mpr
      push_cast
      nlinarith
    omega

theorem newId_eq_repr (r : Draw) : newId r = Nat.repr (candidate r).toNat := by
  have h := (candidate_bounds r).1
  obtain ⟨n, hn⟩ : ∃ n : Nat, candidate r = Int.ofNat n := ⟨(candidate r).toNat, by simp; omega⟩
  unfold newId
  rw [hn]
  rfl

theorem newId_data (r : Draw) :
    ∃ d1 d2 d3 d4 d5 d6 : Nat, 1 ≤ d1 ∧ d1 < 10 ∧ d2 < 10 ∧ d3 < 10 ∧ d4 < 10 ∧ d5 < 10 ∧
      d6 < 10 ∧ (newId r).data = [Nat.digitChar d1, Nat.digitChar d2, Nat.digitChar d3,
        Nat.digitChar d4, Nat.digitChar d5, Nat.digitChar d6] := by
  obtain ⟨h1, h2⟩ := candidate_bounds r
  have e := repr_six (candidate r).toNat (by omega) (by omega)
  rw [← newId_eq_repr] at e
  exact ⟨_, _, _, _, _, _, by omega, by omega, by omega, by omega, by omega, by omega,
    by omega, e⟩

theorem newId_isSixDigits (r : Draw) : isSixDigits (newId r) = true := by
  obtain ⟨d1, d2, d3, d4, d5, d6, _, h1, h2, h3, h4, h5, h6, e⟩ := newId_data r
  simp [isSixDigits, String.length, e, digitChar_isDigit, h1, h2, h3, h4, h5, h6]

theorem newId_head (r : Draw) : ∃ c, (newId r).data.head? = some c ∧ c ≠ '0' := by
  obtain ⟨d1, d2, d3, d4, d5, d6, h0, h1, _, _, _, _, _, e⟩ := newId_data r
  exact ⟨Nat.digitChar d1, by simp [e], digitChar_ne_zero d1 h0 h1⟩

/-! ## The validator chain -/

theorem dropWhile_isDigit_of_all (cs : List Char) (h : cs.all Char.isDigit = true) :
    cs.dropWhile Char.isDigit = [] := by
  induction cs with
  | nil => rfl
  | cons c t ih =>
    simp only [List.all_cons, Bool.and_eq_true] at h
    simp [List.dropWhile, h.1, ih h.2]

theorem isNumeric_of_isSixDigits (id : String) (h : isSixDigits id = true) :
    isNumeric id = true := by
  simp only [isSixDigits, Bool.and_eq_true, decide_eq_true_eq] at h
  obtain ⟨hlen, hall⟩ := h
  have hne : id.data ≠ [] := by
    intro e
    simp [String.length, e] at hlen
  have key : isUnsignedNumeric id.data = true := by
    unfold isUnsignedNumeric
    rw [dropWhile_isDigit_of_all _ hall]
    cases hd : id.data with
    | nil => exact absurd hd hne
    | cons c t => rfl
  unfold isNumeric
  split
  · next t e =>
    rw [e] at hall
    simp at hall
  · next t e =>
    rw [e] at hall
    simp at hall
  · exact key

theorem filter_selector_of_all_isDigit (cs : List Char) (h : cs.all Char.isDigit = true) :
    cs.filter isPresentationSelector = [] := by
  rw [List.filter_eq_nil_iff]
  intro c hc hsel
  have hd : c.isDigit = true := List.all_eq_true.mp h c hc
  simp only [isPresentationSelector, Bool.or_eq_true, beq_iff_eq] at hsel
  rcases hsel with e | e <;> rw [e] at hd <;> exact absurd hd (by decide)

theorem validationErrors_of_isSixDigits (id : String) (h : isSixDigits id = true) :
    validationErrors id = [] := by
  have hn := isNumeric_of_isSixDigits id h
  simp only [isSixDigits, Bool.and_eq_true, decide_eq_true_eq] at h
  simp [validationErrors, isLength, h.1, hn, filter_selector_of_all_isDigit _ h.2]

/-! ## The handlers on the table `active_ids` -/

theorem attempt_activeIds (rows : List String) (r : Draw) :
    attempt activeIds rows r =
      if newId r ∈ rows then (rows, .collision) else (rows ++ [newId r], .inserted (newId r)) := by
  unfold attempt activeIds
  by_cases h : newId r ∈ rows <;> simp [h]

theorem generateIdLoop_activeIds_collision (r : Draw) (rs : List Draw) (rows : List String)
    (qs : List Query) (h : newId r ∈ rows) :
    generateIdLoop activeIds (r :: rs) rows qs =
      generateIdLoop activeIds rs rows (qs ++ [.insert (newId r)]) := by
  rw [generateIdLoop, attempt_activeIds, if_pos h]

theorem generateIdLoop_activeIds_inserted (r : Draw) (rs : List Draw) (rows : List String)
    (qs : List Query) (h : newId r ∉ rows) :
    generateIdLoop activeIds (r :: rs) rows qs =
      ⟨some (.id (newId r)), rows ++ [newId r], qs ++ [.insert (newId r)]⟩ := by
  rw [generateIdLoop, attempt_activeIds, if_neg h]

theorem stepRequest_activeIds_collision (r : Draw) (rs : List Draw) (rows : List String)
    (h : newId r ∈ rows) :
    stepRequest activeIds rows (.running (r :: rs)) = (rows, .running rs) := by
  rw [stepRequest, attempt_activeIds, if_pos h]

theorem stepRequest_activeIds_inserted (r : Draw) (rs : List Draw) (rows : List String)
    (h : newId r ∉ rows) :
    stepRequest activeIds rows (.running (r :: rs)) =
      (rows ++ [newId r], .responded (.id (newId r))) := by
  rw [stepRequest, attempt_activeIds, if_neg h]

theorem generateIdLoop_activeIds (draws : List Draw) (rows : List String) (qs : List Query)
    (id : String)
    (h : (generateIdLoop activeIds draws rows qs).response = some (.id id)) :
    id ∉ rows ∧ (generateIdLoop activeIds draws rows qs).store = rows ++ [id] ∧
      ∃ r ∈ draws, id = newId r := by
  induction draws generalizing qs with
  | nil => simp [generateIdLoop] at h
  | cons r rs ih =>
    unfold generateIdLoop at h ⊢
    rw [attempt_activeIds] at h ⊢
    by_cases hm : newId r ∈ rows
    · simp only [hm, if_true] at h ⊢
      obtain ⟨h1, h2, r', hr', e⟩ := ih _ h
      exact ⟨h1, h2, r', List.mem_cons_of_mem _ hr', e⟩
    · simp only [hm, if_false] at h ⊢
      simp only [Option.some.injEq, Response.id.injEq] at h
      subst h
      exact ⟨hm, rfl, r, List.mem_cons_self _ _, rfl⟩

theorem checkId_activeIds (rows : List String) (id : String) (h : isSixDigits id = true) :
    checkId activeIds rows id = ⟨.idExists (decide (id ∈ rows)), rows, [.select id]⟩ := by
  have hv := validationErrors_of_isSixDigits id h
  simp only [checkId, hv, activeIds, List.isEmpty_nil, Bool.not_true, Bool.false_eq_true,
    if_false]
  congr 2
  by_cases hm : id ∈ rows
  · have : 0 < (rows.filter (fun x => decide (x = id))).length := by
      apply List.length_pos_of_mem (a := id)
      simp [List.mem_filter, hm]
    simp [hm, this]
  · have : rows.filter (fun x => decide (x = id)) = [] := by
      simp only [List.filter_eq_nil_iff, decide_eq_true_eq]
      intro a ha e
      exact hm (e ▸ ha)
    simp [hm, this]

theorem onDisconnect_activeIds (rows : List String) (peerId : String) :
    onDisconnect activeIds rows peerId =
      ⟨.ok (.info peerId), rows.filter (fun x => x ≠ peerId), [.delete peerId]⟩ := by
  rfl

/-! ## Concrete draws -/

theorem binary64_zero : binary64 0 = 0 := by
  have := binary64_of_grid 0 (by norm_num)
  simpa using this

/-- A draw is a binary64 value: rounding leaves it as it is. -/
theorem Draw.binary64_val (r : Draw) : binary64 r.val = r.val := by
  have h2 : (2 : ℚ) ≠ 0 := by norm_num
  have hval : r.val = (r.mantissa : ℚ) * 2 ^ (-(r.exponent : ℤ)) := by
    unfold Draw.val
    rw [zpow_neg, zpow_natCast, div_eq_mul_inv]
  have hge := r.exponent_ge
  have hle := r.exponent_le
  by_cases hpos : 0 < r.val
  · have hlt : r.val < ((2 : ℕ) : ℚ) ^ (53 + -(r.exponent : ℤ)) := by
      rw [hval]
      push_cast
      rw [zpow_add₀ h2]
      apply mul_lt_mul_of_pos_right _ (by positivity)
      have := r.mantissa_lt
      exact_mod_cast this
    have hlog := (Int.lt_zpow_iff_log_lt (b := 2) (by norm_num) hpos).mp hlt
    obtain ⟨e, he⟩ : ∃ e : ℤ, e = max (Int.log 2 r.val) (-1022) - 52 := ⟨_, rfl⟩
    have hulp : ulp r.val = 2 ^ e := by rw [he]; rfl
    have hu : e ≤ -(r.exponent : ℤ) := by
      have : max (Int.log 2 r.val) (-1022) ≤ 52 - (r.exponent : ℤ) :=
        max_le (by omega) (by omega)
      omega
    obtain ⟨j, hj⟩ : ∃ j : ℕ, -(r.exponent : ℤ) = (j : ℤ) + e :=
      ⟨(-(r.exponent : ℤ) - e).toNat, by
        rw [Int.toNat_of_nonneg (by omega)]
        ring⟩
    have hpe : (0 : ℚ) < 2 ^ e := by positivity
    have hq : r.val / 2 ^ e = ((r.mantissa * 2 ^ j : ℤ) : ℚ) := by
      rw [div_eq_iff hpe.ne', hval, hj, zpow_add₀ h2, zpow_natCast]
      push_cast
      ring
    unfold binary64
    rw [hulp, hq, roundHalfEven_intCast, ← hq, div_mul_cancel₀ _ hpe.ne']
  · have h0 : r.val = 0 := le_antisymm (not_lt.mp hpos) r.val_nonneg
    rw [h0]
    exact binary64_zero

theorem drawZero_val : drawZero.val = 0 := by
  norm_num [Draw.val, drawZero]

theorem drawHalf_val : drawHalf.val = 1 / 2 := by
  norm_num [Draw.val, drawHalf]

theorem drawTop_val : drawTop.val = 1 - 2 ^ (-53 : ℤ) := by
  norm_num [Draw.val, drawTop]

theorem binary64_natCast (n : ℕ) (h : n < 2 ^ 20) : binary64 (n : ℚ) = n := by
  have h2 : (8589934592 : ℚ) * 2 ^ (-33 : ℤ) = 1 := by norm_num
  have e : (((n : ℤ) * 2 ^ 33 : ℤ) : ℚ) * 2 ^ (-33 : ℤ) = n := by
    push_cast
    rw [mul_assoc, h2, mul_one]
  have := binary64_of_grid ((n : ℤ) * 2 ^ 33) (by
    rw [e]
    exact_mod_cast h)
  rwa [e] at this

theorem candidate_drawZero : candidate drawZero = 100000 := by
  have h1 : binary64 (100000 : ℚ) = 100000 := by
    simpa using binary64_natCast 100000 (by norm_num)
  simp [candidate, drawZero_val, binary64_zero, h1]

theorem candidate_drawHalf : candidate drawHalf = 550000 := by
  have h1 : binary64 (450000 : ℚ) = 450000 := by
    simpa using binary64_natCast 450000 (by norm_num)
  have h2 : binary64 (550000 : ℚ) = 550000 := by
    simpa using binary64_natCast 550000 (by norm_num)
  have e1 : (1 / 2 : ℚ) * 900000 = 450000 := by norm_num
  have e2 : (100000 : ℚ) + 450000 = 550000 := by norm_num
  simp only [candidate, drawHalf_val, e1, h1, e2, h2]
  norm_num

theorem candidate_drawTop : candidate drawTop = 999999 := by
  have hp : binary64 ((1 - 2 ^ (-53 : ℤ)) * 900000) = 900000 - 2 ^ (-33 : ℤ) := by
    have hb := binary64_below_900000 ((1 - 2 ^ (-53 : ℤ)) * 900000) (by norm_num)
      (by norm_num)
    have hlt : ((1 : ℚ) - 2 ^ (-53 : ℤ)) * 900000 < 2 ^ 20 := by norm_num
    have hg := (binary64_grid _ hlt (900000 * 2 ^ 33 - 1)).1 (by norm_num)
    have eN : (900000 : ℚ) - 2 ^ (-33 : ℤ) = ((900000 * 2 ^ 33 - 1 : ℤ) : ℚ) * 2 ^ (-33 : ℤ) := by
      norm_num
    rw [← eN] at hg
    exact le_antisymm hb.2 hg
  have hs : binary64 (100000 + (900000 - 2 ^ (-33 : ℤ))) = 1000000 - 2 ^ (-33 : ℤ) := by
    have := binary64_of_grid (1000000 * 2 ^ 33 - 1) (by norm_num)
    have e : ((1000000 * 2 ^ 33 - 1 : ℤ) : ℚ) * 2 ^ (-33 : ℤ) = 100000 + (900000 - 2 ^ (-33 : ℤ)) := by
      norm_num
    rw [e] at this
    rw [this]
    norm_num
  simp only [candidate, drawTop_val, hp, hs]
  rw [Int.floor_eq_iff]
  norm_num

theorem newId_def (r : Draw) : newId r = toString (candidate r) := rfl

theorem newId_drawZero : newId drawZero = "100000" := by
  rw [newId_def, candidate_drawZero]
  decide

theorem newId_drawHalf : newId drawHalf = "550000" := by
  rw [newId_def, candidate_drawHalf]
  decide

theorem newId_drawTop : newId drawTop = "999999" := by
  rw [newId_def, candidate_drawTop]
  decide

/-! ## Round trip (C1) -/

/-- C1 (round-trip existence). On the table `active_ids` of a working store, in every
state `rows` and for every sequence of draws: when the handler of `/generate-id` answers
with the identifier `id`, a following `/check-id/id` answers `idExists: true`, and after
the `disconnect` listener has run for `id` (it completes), a following `/check-id/id`
answers `idExists: false`. -/
theorem roundtrip_existence (draws : List Draw) (rows : List String) (id : String)
    (h : (generateId activeIds draws rows).response = some (.id id)) :
    (checkId activeIds (generateId activeIds draws rows).store id).response = .idExists true ∧
    (∃ line, (onDisconnect activeIds (generateId activeIds draws rows).store id).response
      = .ok line) ∧
    (checkId activeIds
      (onDisconnect activeIds (generateId activeIds draws rows).store id).store id).response
      = .idExists false := by
  obtain ⟨_, hstore, r, _, hr⟩ := generateIdLoop_activeIds draws rows [] id h
  have hsix : isSixDigits id = true := hr ▸ newId_isSixDigits r
  have hs : (generateId activeIds draws rows).store = rows ++ [id] := hstore
  rw [hs, checkId_activeIds _ _ hsix, onDisconnect_activeIds, checkId_activeIds _ _ hsix]
  refine ⟨by simp, ⟨_, rfl⟩, ?_⟩
  simp [List.mem_filter]

/-- C1 at a concrete input: the store holds 100000, the draws are 0 (a collision) and
1/2; the handler answers 550000, which then exists, and does not after the release. -/
theorem roundtrip_existence_witness :
    (generateId activeIds [drawZero, drawHalf] ["100000"]).response = some (.id "550000") ∧
    (checkId activeIds (generateId activeIds [drawZero, drawHalf] ["100000"]).store
      "550000").response = .idExists true ∧
    (checkId activeIds
      (onDisconnect activeIds (generateId activeIds [drawZero, drawHalf] ["100000"]).store
        "550000").store "550000").response = .idExists false :=
  have h : (generateId activeIds [drawZero, drawHalf] ["100000"]).response
      = some (.id "550000") := by
    rw [generateId,
      generateIdLoop_activeIds_collision _ _ _ _ (by rw [newId_drawZero]; decide),
      generateIdLoop_activeIds_inserted _ _ _ _ (by rw [newId_drawHalf]; decide),
      newId_drawHalf]
  ⟨h, (roundtrip_existence [drawZero, drawHalf] ["100000"] "550000" h).1,
    (roundtrip_existence [drawZero, drawHalf] ["100000"] "550000" h).2.2⟩

/-! ## Identifier format (C2) -/

/-- C2 (identifier format). For every draw `r` of `Math.random()`, a binary64 number with
`0 ≤ r < 1`, the candidate `floor(100000 + r * 900000)` computed in binary64 arithmetic
lies in `[100000, 999999]`, and its decimal rendering `newId r` is exactly six decimal
digits with a leading digit other than 0; hence every identifier that `/generate-id`
returns, on any pool, has this format. Both ends are attained: the draw 0 gives 100000
and the draw `1 - 2 ^ (-53)` gives 999999. The same range holds for the formula in exact
arithmetic at every number `r` with `0 ≤ r < 1`. -/
theorem generated_id_format :
    (∀ r : Draw, 0 ≤ r.val ∧ r.val < 1 ∧ 100000 ≤ candidate r ∧ candidate r ≤ 999999 ∧
      newId r = Nat.repr (candidate r).toNat ∧ isSixDigits (newId r) = true ∧
      ∃ c, (newId r).data.head? = some c ∧ c ≠ '0') ∧
    (∀ (σ : Type) (P : Pool σ) (draws : List Draw) (s : σ) (id : String),
      (generateId P draws s).response = some (.id id) →
        isSixDigits id = true ∧ ∃ c, id.data.head? = some c ∧ c ≠ '0') ∧
    (∃ r : Draw, candidate r = 100000 ∧ newId r = "100000") ∧
    (∃ r : Draw, candidate r = 999999 ∧ newId r = "999999") ∧
    (∀ r : ℚ, 0 ≤ r → r < 1 → 100000 ≤ exactCandidate r ∧ exactCandidate r ≤ 999999) := by
  refine ⟨fun r => ⟨r.val_nonneg, r.val_lt_one, (candidate_bounds r).1, (candidate_bounds r).2,
    newId_eq_repr r, newId_isSixDigits r, newId_head r⟩, ?_,
    ⟨drawZero, candidate_drawZero, newId_drawZero⟩,
    ⟨drawTop, candidate_drawTop, newId_drawTop⟩, exactCandidate_bounds⟩
  intro σ P draws s id h
  have key : ∀ (draws : List Draw) (s : σ) (qs : List Query),
      (generateIdLoop P draws s qs).response = some (.id id) → ∃ r, id = newId r := by
    intro draws
    induction draws with
    | nil => intro s qs h; simp [generateIdLoop] at h
    | cons r rs ih =>
      intro s qs h
      unfold generateIdLoop attempt at h
      rcases hq : P.query s (.insert (newId r)) with ⟨s', rs' | code⟩
      · rw [hq] at h
        simp only [Option.some.injEq, Response.id.injEq] at h
        exact ⟨r, h.symm⟩
      · rw [hq] at h
        by_cases hc : code = some "23505"
        · simp only [hc, ne_eq, not_true_eq_false, if_false] at h
          exact ih _ _ h
        · simp [hc] at h
  obtain ⟨r, rfl⟩ := key draws s [] h
  exact ⟨newId_isSixDigits r, newId_head r⟩

/-- C2 at a concrete input: the identifier returned for the draw 1/2 on an empty table
is 550000, six digits. -/
theorem generated_id_format_witness :
    isSixDigits "550000" = true ∧ ∃ c, "550000".data.head? = some c ∧ c ≠ '0' :=
  generated_id_format.2.1 (List String) activeIds [drawHalf] [] "550000"
    (by rw [generateId,
      generateIdLoop_activeIds_inserted _ _ _ _ (by rw [newId_drawHalf]; decide),
      newId_drawHalf])

/-! ## Uniqueness (C3) -/

theorem applyOp_activeIds_mem (rows : List String) (op : Op) (id : String)
    (hop : op ≠ Op.release id) (h : id ∈ rows) : id ∈ applyOp activeIds rows op := by
  cases op with
  | attempt r =>
    simp only [applyOp, attempt_activeIds]
    by_cases hm : newId r ∈ rows <;> simp [hm, h]
  | release peerId =>
    have hne : id ≠ peerId := fun e => hop (e ▸ rfl)
    simp [applyOp, onDisconnect_activeIds, List.mem_filter, h, hne]

theorem applyOps_activeIds_mem (ops : List Op) (rows : List String) (id : String)
    (hops : Op.release id ∉ ops) (h : id ∈ rows) : id ∈ applyOps activeIds rows ops := by
  induction ops generalizing rows with
  | nil => exact h
  | cons op ops ih =>
    simp only [List.mem_cons, not_or] at hops
    exact ih _ hops.2 (applyOp_activeIds_mem rows op id (fun e => hops.1 e.symm) h)

theorem stepRequest_activeIds (rows : List String) (a : Request) :
    (∀ x ∈ rows, x ∈ (stepRequest activeIds rows a).1) ∧
    (∀ id, (stepRequest activeIds rows a).2 = .responded (.id id) →
      (a = .responded (.id id) ∧ (stepRequest activeIds rows a).1 = rows) ∨
      (id ∉ rows ∧ id ∈ (stepRequest activeIds rows a).1)) := by
  cases a with
  | responded response =>
    exact ⟨fun x hx => hx, fun id h => Or.inl ⟨h, rfl⟩⟩
  | running draws =>
    cases draws with
    | nil => exact ⟨fun x hx => hx, fun id h => by simp [stepRequest] at h⟩
    | cons r rs =>
      simp only [stepRequest, attempt_activeIds]
      by_cases hm : newId r ∈ rows
      · simp [hm]
      · simp only [hm, if_false]
        refine ⟨fun x hx => by simp [hx], fun id h => Or.inr ?_⟩
        simp only [Request.responded.injEq, Response.id.injEq] at h
        subst h
        exact ⟨hm, by simp⟩

theorem apart_step_first (rows : List String) (a b : Request) (h : Apart rows a b) :
    Apart (stepRequest activeIds rows a).1 (stepRequest activeIds rows a).2 b := by
  obtain ⟨ha, hb, hab⟩ := h
  obtain ⟨hmono, hnew⟩ := stepRequest_activeIds rows a
  refine ⟨fun id hid => ?_, fun id hid => hmono _ (hb id hid), fun i j hi hj => ?_⟩
  · rcases hnew id hid with ⟨e, _⟩ | ⟨_, hin⟩
    · exact hmono _ (ha id e)
    · exact hin
  · rcases hnew i hi with ⟨e, _⟩ | ⟨hnot, _⟩
    · exact hab i j e hj
    · intro e
      exact hnot (e ▸ hb j hj)

theorem apart_step_second (rows : List String) (a b : Request) (h : Apart rows a b) :
    Apart (stepRequest activeIds rows b).1 a (stepRequest activeIds rows b).2 := by
  obtain ⟨ha, hb, hab⟩ := h
  obtain ⟨hmono, hnew⟩ := stepRequest_activeIds rows b
  refine ⟨fun id hid => hmono _ (ha id hid), fun id hid => ?_, fun i j hi hj => ?_⟩
  · rcases hnew id hid with ⟨e, _⟩ | ⟨_, hin⟩
    · exact hmono _ (hb id e)
    · exact hin
  · rcases hnew j hj with ⟨e, _⟩ | ⟨hnot, _⟩
    · exact hab i j hi e
    · intro e
      exact hnot (e ▸ ha i hi)

theorem apart_interleave (sch : List Bool) (rows : List String) (a b : Request)
    (h : Apart rows a b) :
    Apart (interleave activeIds sch rows a b).1 (interleave activeIds sch rows a b).2.1
      (interleave activeIds sch rows a b).2.2 := by
  induction sch generalizing rows a b with
  | nil => exact h
  | cons t sch ih =>
    cases t with
    | true => exact ih _ _ _ (apart_step_first rows a b h)
    | false => exact ih _ _ _ (apart_step_second rows a b h)

theorem interleave_responded {σ : Type} (P : Pool σ) (n : Nat) (s : σ) (response : Response)
    (b : Request) :
    interleave P (List.replicate n true) s (.responded response) b
      = (s, .responded response, b) := by
  induction n with
  | zero => rfl
  | succ n ih => simpa [List.replicate, interleave, stepRequest] using ih

/-- A request scheduled alone is the handler: its passes, one for each draw, leave the
pool and the answer that the loop of `/generate-id` computes. -/
theorem interleave_alone {σ : Type} (P : Pool σ) (draws : List Draw) (s : σ) (qs : List Query)
    (b : Request) :
    interleave P (List.replicate draws.length true) s (.running draws) b =
      ((generateIdLoop P draws s qs).store,
        (match (generateIdLoop P draws s qs).response with
          | some response => Request.responded response
          | none => Request.running []), b) := by
  induction draws generalizing s qs with
  | nil => rfl
  | cons r rs ih =>
    simp only [List.length_cons, List.replicate, interleave, stepRequest, generateIdLoop]
    rcases h : attempt P s r with ⟨s', peerId | _ | code⟩
    · simp only [h]
      exact interleave_responded P _ _ _ _
    · simp only [h]
      exact ih s' _
    · simp only [h]
      exact interleave_responded P _ _ _ _

/-- C3 (uniqueness), with the insert of the store an atomic insert-if-absent.
(1) An identifier that `/generate-id` returns was absent from the live identifiers
before its insert and is present after it, and every other row is unchanged (the table
is the old one with the identifier appended).
(2) Two calls one after the other: while the first identifier is still live when the
second call starts, the two identifiers differ.
(3) Any statements of any requests in between: after a pass has inserted an identifier,
and through any sequence of passes and releases that does not release it, a pass that
draws the same identifier ends in a collision and does not return it.
(4) Two calls whose passes are interleaved by any schedule never answer with the same
identifier. -/
theorem allocate_unique :
    (∀ (draws : List Draw) (rows : List String) (id : String),
      (generateId activeIds draws rows).response = some (.id id) →
        id ∉ rows ∧ id ∈ (generateId activeIds draws rows).store ∧
        (generateId activeIds draws rows).store = rows ++ [id] ∧
        ∀ x, x ≠ id → (x ∈ (generateId activeIds draws rows).store ↔ x ∈ rows)) ∧
    (∀ (draws1 draws2 : List Draw) (rows rows2 : List String) (id1 id2 : String),
      (generateId activeIds draws1 rows).response = some (.id id1) →
      id1 ∈ rows2 →
      (generateId activeIds draws2 rows2).response = some (.id id2) → id1 ≠ id2) ∧
    (∀ (rows : List String) (r r2 : Draw) (ops : List Op),
      (attempt activeIds rows r).2 = .inserted (newId r) →
      Op.release (newId r) ∉ ops → newId r2 = newId r →
      (attempt activeIds (applyOps activeIds (attempt activeIds rows r).1 ops) r2).2
        = .collision) ∧
    (∀ (sch : List Bool) (draws1 draws2 : List Draw) (rows : List String) (id1 id2 : String),
      (interleave activeIds sch rows (.running draws1) (.running draws2)).2
        = (.responded (.id id1), .responded (.id id2)) → id1 ≠ id2) := by
  refine ⟨?_, ?_, ?_, ?_⟩
  · intro draws rows id h
    obtain ⟨h1, h2, _⟩ := generateIdLoop_activeIds draws rows [] id h
    have hs : (generateId activeIds draws rows).store = rows ++ [id] := h2
    refine ⟨h1, by simp [hs], hs, fun x hx => ?_⟩
    simp [hs, hx]
  · intro draws1 draws2 rows rows2 id1 id2 _ hlive h2 e
    obtain ⟨hnot, _, _⟩ := generateIdLoop_activeIds draws2 rows2 [] id2 h2
    exact hnot (e ▸ hlive)
  · intro rows r r2 ops h hops e
    have hin : newId r ∈ (attempt activeIds rows r).1 := by
      rw [attempt_activeIds] at h ⊢
      by_cases hm : newId r ∈ rows
      · simp [hm] at h
      · simp [hm]
    have hlive := applyOps_activeIds_mem ops _ _ hops hin
    rw [attempt_activeIds, e]
    simp [hlive]
  · intro sch draws1 draws2 rows id1 id2 h
    have hap : Apart rows (.running draws1) (.running draws2) := by
      refine ⟨fun id e => ?_, fun id e => ?_, fun i j e _ => ?_⟩ <;> cases e
    have := apart_interleave sch rows _ _ hap
    rw [Prod.ext_iff] at h
    exact this.2.2 id1 id2 h.1 h.2

/-- C3 at a concrete input: two calls interleaved on an empty table, both drawing 0
first; the first answers 100000, the second collides, draws 1/2 and answers 550000. -/
theorem allocate_unique_witness :
    (interleave activeIds [true, false, false] [] (.running [drawZero])
      (.running [drawZero, drawHalf])).2
      = (.responded (.id "100000"), .responded (.id "550000")) ∧
    ("100000" : String) ≠ "550000" :=
  have h : (interleave activeIds [true, false, false] [] (.running [drawZero])
      (.running [drawZero, drawHalf])).2
      = (.responded (.id "100000"), .responded (.id "550000")) := by
    have e1 : stepRequest activeIds [] (.running [drawZero])
        = (["100000"], .responded (.id "100000")) := by
      rw [stepRequest_activeIds_inserted _ _ _ (by simp), newId_drawZero]
      rfl
    have e2 : stepRequest activeIds ["100000"] (.running [drawZero, drawHalf])
        = (["100000"], .running [drawHalf]) :=
      stepRequest_activeIds_collision _ _ _ (by rw [newId_drawZero]; decide)
    have e3 : stepRequest activeIds ["100000"] (.running [drawHalf])
        = (["100000", "550000"], .responded (.id "550000")) := by
      rw [stepRequest_activeIds_inserted _ _ _ (by rw [newId_drawHalf]; decide),
        newId_drawHalf]
      rfl
    rw [interleave, e1, interleave, e2, interleave, e3, interleave]
  ⟨h, allocate_unique.2.2.2 [true, false, false] [drawZero] [drawZero, drawHalf] []
    "100000" "550000" h⟩

/-! ## Retry and failure (C4) -/

theorem scripted_query_cons (o : QueryResult) (os : List QueryResult) (q : Query) :
    scripted.query (o :: os) q = (os, o) := rfl

theorem generateIdLoop_scripted_collisions (pre rest : List (Draw × QueryResult))
    (qs : List Query) (hpre : ∀ x ∈ pre, isCollision x.2 = true) :
    generateIdLoop scripted ((pre ++ rest).map Prod.fst) ((pre ++ rest).map Prod.snd) qs =
      generateIdLoop scripted (rest.map Prod.fst) (rest.map Prod.snd)
        (qs ++ insertsOf (pre.map Prod.fst)) := by
  induction pre generalizing qs with
  | nil => simp [insertsOf]
  | cons x pre ih =>
    obtain ⟨r, res⟩ := x
    have hx : isCollision res = true := hpre (r, res) (List.mem_cons_self _ _)
    have hrest : ∀ y ∈ pre, isCollision y.2 = true :=
      fun y hy => hpre y (List.mem_cons_of_mem _ hy)
    cases res with
    | rows rs => simp [isCollision] at hx
    | error code =>
      simp only [isCollision, decide_eq_true_eq] at hx
      subst hx
      simp only [List.cons_append, List.map_cons, generateIdLoop, attempt,
        scripted_query_cons, ne_eq, not_true_eq_false, if_false, List.append_eq]
      rw [ih _ hrest]
      simp [insertsOf]

theorem generateIdLoop_scripted_rows (r : Draw) (rs : List String)
    (post : List (Draw × QueryResult)) (qs : List Query) :
    generateIdLoop scripted (((r, QueryResult.rows rs) :: post).map Prod.fst)
      (((r, QueryResult.rows rs) :: post).map Prod.snd) qs =
      ⟨some (.id (newId r)), post.map Prod.snd, qs ++ [.insert (newId r)]⟩ := by
  simp [generateIdLoop, attempt, scripted_query_cons]

theorem generateIdLoop_scripted_error (r : Draw) (code : Option String)
    (hcode : code ≠ some "23505") (post : List (Draw × QueryResult)) (qs : List Query) :
    generateIdLoop scripted (((r, QueryResult.error code) :: post).map Prod.fst)
      (((r, QueryResult.error code) :: post).map Prod.snd) qs =
      ⟨some (.error 500 "Could not generate an ID."), post.map Prod.snd,
        qs ++ [.insert (newId r)]⟩ := by
  simp [generateIdLoop, attempt, scripted_query_cons, hcode]

theorem rounds_cases (rounds : List (Draw × QueryResult)) :
    (∀ x ∈ rounds, isCollision x.2 = true) ∨
    ∃ pre x post, rounds = pre ++ x :: post ∧ (∀ y ∈ pre, isCollision y.2 = true) ∧
      isCollision x.2 = false := by
  induction rounds with
  | nil => exact Or.inl (fun x hx => by cases hx)
  | cons x xs ih =>
    by_cases hx : isCollision x.2 = true
    · rcases ih with hall | ⟨pre, y, post, e, hpre, hy⟩
      · left
        intro z hz
        rcases List.mem_cons.mp hz with rfl | hz
        · exact hx
        · exact hall z hz
      · right
        refine ⟨x :: pre, y, post, by simp [e], ?_, hy⟩
        intro z hz
        rcases List.mem_cons.mp hz with rfl | hz
        · exact hx
        · exact hpre z hz
    · right
      exact ⟨[], x, xs, rfl, by simp, by simpa using hx⟩

/-- The handler run on rounds of a draw and the answer of the pool to its insert. -/
theorem generateId_scripted_cases (rounds : List (Draw × QueryResult)) :
    ((∀ x ∈ rounds, isCollision x.2 = true) ∧
      generateId scripted (rounds.map Prod.fst) (rounds.map Prod.snd) =
        ⟨none, [], insertsOf (rounds.map Prod.fst)⟩) ∨
    (∃ pre r rs post, rounds = pre ++ (r, .rows rs) :: post ∧
      (∀ y ∈ pre, isCollision y.2 = true) ∧
      generateId scripted (rounds.map Prod.fst) (rounds.map Prod.snd) =
        ⟨some (.id (newId r)), post.map Prod.snd,
          insertsOf (pre.map Prod.fst) ++ [.insert (newId r)]⟩) ∨
    (∃ pre r code post, rounds = pre ++ (r, .error code) :: post ∧
      (∀ y ∈ pre, isCollision y.2 = true) ∧ code ≠ some "23505" ∧
      generateId scripted (rounds.map Prod.fst) (rounds.map Prod.snd) =
        ⟨some (.error 500 "Could not generate an ID."), post.map Prod.snd,
          insertsOf (pre.map Prod.fst) ++ [.insert (newId r)]⟩) := by
  rcases rounds_cases rounds with hall | ⟨pre, ⟨r, res⟩, post, e, hpre, hx⟩
  · left
    refine ⟨hall, ?_⟩
    have := generateIdLoop_scripted_collisions rounds [] [] hall
    simpa [generateId, generateIdLoop] using this
  · right
    have key := generateIdLoop_scripted_collisions pre ((r, res) :: post) [] hpre
    cases res with
    | rows rs =>
      left
      refine ⟨pre, r, rs, post, e, hpre, ?_⟩
      rw [generateId, e, key, generateIdLoop_scripted_rows]
      simp
    | error code =>
      right
      have hcode : code ≠ some "23505" := by simpa [isCollision] using hx
      refine ⟨pre, r, code, post, e, hpre, hcode, ?_⟩
      rw [generateId, e, key, generateIdLoop_scripted_error _ _ hcode]
      simp

/-- C4 (retry and failure). For every sequence of rounds, a round being a candidate draw
and the outcome of its insert:
(1) the handler returns `id` exactly when the first round that is not a uniqueness
violation (code 23505) is a successful insert, and `id` is the candidate of that round;
(2) it answers 500 with the error text `Could not generate an ID.` exactly when the
first round that is not a uniqueness violation is an error with another code;
(3) it is still in its loop, with no response, exactly when every round is a uniqueness
violation, so a collision alone never produces an error response;
(4) it never answers anything else;
(5) the inserts it sends are those of the rounds up to and including the first that is
not a uniqueness violation: it retries exactly on a uniqueness violation. -/
theorem allocate_retry_policy (rounds : List (Draw × QueryResult)) :
    (∀ id, (generateIdOn rounds).response = some (.id id) ↔
      ∃ pre r rs post, rounds = pre ++ (r, .rows rs) :: post ∧
        (∀ y ∈ pre, isCollision y.2 = true) ∧ id = newId r) ∧
    ((generateIdOn rounds).response = some (.error 500 "Could not generate an ID.") ↔
      ∃ pre r code post, rounds = pre ++ (r, .error code) :: post ∧
        (∀ y ∈ pre, isCollision y.2 = true) ∧ code ≠ some "23505") ∧
    ((generateIdOn rounds).response = none ↔ ∀ x ∈ rounds, isCollision x.2 = true) ∧
    (∀ resp, (generateIdOn rounds).response = some resp →
      (∃ r, resp = .id (newId r)) ∨ resp = .error 500 "Could not generate an ID.") ∧
    (generateIdOn rounds).queries = insertsOf
      ((rounds.take ((rounds.takeWhile (fun x => isCollision x.2)).length + 1)).map
        Prod.fst) := by
  have rows_of : ∀ pre r rs post, rounds = pre ++ (r, QueryResult.rows rs) :: post →
      (∀ y ∈ pre, isCollision y.2 = true) →
      generateIdOn rounds = ⟨some (.id (newId r)), post.map Prod.snd,
        insertsOf (pre.map Prod.fst) ++ [.insert (newId r)]⟩ := by
    intro pre r rs post e hpre
    rw [generateIdOn, generateId, e, generateIdLoop_scripted_collisions _ _ _ hpre,
      generateIdLoop_scripted_rows]
    simp
  have error_of : ∀ pre r code post, rounds = pre ++ (r, QueryResult.error code) :: post →
      (∀ y ∈ pre, isCollision y.2 = true) → code ≠ some "23505" →
      generateIdOn rounds = ⟨some (.error 500 "Could not generate an ID."),
        post.map Prod.snd, insertsOf (pre.map Prod.fst) ++ [.insert (newId r)]⟩ := by
    intro pre r code post e hpre hcode
    rw [generateIdOn, generateId, e, generateIdLoop_scripted_collisions _ _ _ hpre,
      generateIdLoop_scripted_error _ _ hcode]
    simp
  have take_of : ∀ pre (x : Draw × QueryResult) post, rounds = pre ++ x :: post →
      (∀ y ∈ pre, isCollision y.2 = true) → isCollision x.2 = false →
      (rounds.take ((rounds.takeWhile (fun x => isCollision x.2)).length + 1)).map Prod.fst
        = pre.map Prod.fst ++ [x.1] := by
    intro pre x post e hpre hx
    have htw : rounds.takeWhile (fun x => isCollision x.2) = pre := by
      rw [e, List.takeWhile_append_of_pos hpre]
      simp [List.takeWhile, hx]
    rw [htw, e, List.take_append_eq_append_take]
    simp
  rcases generateId_scripted_cases rounds with ⟨hall, hval⟩ | ⟨pre, r, rs, post, e, hpre, hval⟩ |
    ⟨pre, r, code, post, e, hpre, hcode, hval⟩
  · have hval2 : generateIdOn rounds = ⟨none, [], insertsOf (rounds.map Prod.fst)⟩ := hval
    refine ⟨fun id => ⟨fun h => ?_, ?_⟩, ⟨fun h => ?_, ?_⟩, ⟨fun _ => hall, fun _ => ?_⟩,
      fun resp h => ?_, ?_⟩
    · rw [hval2] at h
      cases h
    · rintro ⟨pre, r, rs, post, e, _, _⟩
      have := hall (r, .rows rs) (by simp [e])
      simp [isCollision] at this
    · rw [hval2] at h
      cases h
    · rintro ⟨pre, r, code, post, e, _, hcode⟩
      have := hall (r, .error code) (by simp [e])
      simp [isCollision] at this
      exact absurd this hcode
    · rw [hval2]
    · rw [hval2] at h
      cases h
    · rw [hval2]
      have htw : rounds.takeWhile (fun x => isCollision x.2) = rounds :=
        List.takeWhile_eq_self_iff.mpr hall
      rw [htw, List.take_of_length_le (Nat.le_succ _)]
  · have hval2 : generateIdOn rounds = ⟨some (.id (newId r)), post.map Prod.snd,
        insertsOf (pre.map Prod.fst) ++ [.insert (newId r)]⟩ := hval
    have hmem : (r, QueryResult.rows rs) ∈ rounds := by simp [e]
    refine ⟨fun id => ⟨fun h => ?_, ?_⟩, ⟨fun h => ?_, ?_⟩, ⟨fun h => ?_, fun hall => ?_⟩,
      fun resp h => ?_, ?_⟩
    · rw [hval2] at h
      simp only [Option.some.injEq, Response.id.injEq] at h
      exact ⟨pre, r, rs, post, e, hpre, h.symm⟩
    · rintro ⟨pre2, r2, rs2, post2, e2, hpre2, hid⟩
      rw [rows_of pre2 r2 rs2 post2 e2 hpre2, hid]
    · rw [hval2] at h
      cases h
    · rintro ⟨pre2, r2, code2, post2, e2, hpre2, hcode2⟩
      have := error_of pre2 r2 code2 post2 e2 hpre2 hcode2
      rw [hval2] at this
      cases this
    · rw [hval2] at h
      cases h
    · have := hall _ hmem
      simp [isCollision] at this
    · rw [hval2] at h
      simp only [Option.some.injEq] at h
      exact Or.inl ⟨r, h.symm⟩
    · rw [hval2, take_of pre (r, .rows rs) post e hpre rfl]
      simp [insertsOf]
  · have hval2 : generateIdOn rounds = ⟨some (.error 500 "Could not generate an ID."),
        post.map Prod.snd, insertsOf (pre.map Prod.fst) ++ [.insert (newId r)]⟩ := hval
    have hmem : (r, QueryResult.error code) ∈ rounds := by simp [e]
    have hx : isCollision (QueryResult.error code) = false := by simp [isCollision, hcode]
    refine ⟨fun id => ⟨fun h => ?_, ?_⟩, ⟨fun _ => ?_, fun _ => ?_⟩,
      ⟨fun h => ?_, fun hall => ?_⟩, fun resp h => ?_, ?_⟩
    · rw [hval2] at h
      cases h
    · rintro ⟨pre2, r2, rs2, post2, e2, hpre2, hid⟩
      have := rows_of pre2 r2 rs2 post2 e2 hpre2
      rw [hval2] at this
      cases this
    · exact ⟨pre, r, code, post, e, hpre, hcode⟩
    · rw [hval2]
    · rw [hval2] at h
      cases h
    · have := hall _ hmem
      rw [hx] at this
      cases this
    · rw [hval2] at h
      simp only [Option.some.injEq] at h
      exact Or.inr h.symm
    · rw [hval2, take_of pre (r, .error code) post e hpre hx]
      simp [insertsOf]

/-- C4 at a concrete input: the first insert is a uniqueness violation, the second
succeeds; the handler returns the second candidate, 550000. -/
theorem allocate_retry_policy_witness :
    (generateIdOn [(drawZero, .error (some "23505")), (drawHalf, .rows [])]).response
      = some (.id "550000") :=
  ((allocate_retry_policy [(drawZero, .error (some "23505")), (drawHalf, .rows [])]).1
    "550000").mpr
    ⟨[(drawZero, .error (some "23505"))], drawHalf, [], [], rfl, by simp [isCollision],
      newId_drawHalf.symm⟩

/-! ## Release (C5) -/

/-- C5 (idempotent release). In every state `rows` of the table and for every
identifier `x`, live or not: after the `disconnect` listener has run for `x` the table
has no row for `x` and each other row is as before (the table is the old one without
`x`); a second run leaves the table exactly as the first did; and on every pool, also
one whose delete fails, the listener completes without an exception leaving it. -/
theorem release_idempotent (rows : List String) (x : String) :
    x ∉ (onDisconnect activeIds rows x).store ∧
    (onDisconnect activeIds rows x).store = rows.filter (fun y => y ≠ x) ∧
    (∀ y, y ≠ x → (y ∈ (onDisconnect activeIds rows x).store ↔ y ∈ rows)) ∧
    (onDisconnect activeIds (onDisconnect activeIds rows x).store x).store
      = (onDisconnect activeIds rows x).store ∧
    (∀ (σ : Type) (P : Pool σ) (s : σ), ∃ line, (onDisconnect P s x).response = .ok line) := by
  refine ⟨?_, rfl, ?_, ?_, ?_⟩
  · simp [onDisconnect_activeIds, List.mem_filter]
  · intro y hy
    simp [onDisconnect_activeIds, List.mem_filter, hy]
  · simp [onDisconnect_activeIds, List.filter_filter]
  · intro σ P s
    unfold onDisconnect
    rcases P.query s (.delete x) with ⟨s', rs | code⟩
    · exact ⟨_, rfl⟩
    · exact ⟨_, rfl⟩

/-- C5 at a concrete input: releasing 482913 keeps the other row 100000. -/
theorem release_idempotent_witness :
    ("100000" ∈ (onDisconnect activeIds ["482913", "100000"] "482913").store ↔
      "100000" ∈ ["482913", "100000"]) :=
  (release_idempotent ["482913", "100000"] "482913").2.2.1 "100000" (by decide)

/-! ## Format check of `/check-id/:id` (C6) -/

/-- The handler of `/check-id/:id` on an identifier of exactly six decimal digits, on the
table `active_ids`: it sends one select, answers `idExists: b` with `b` true exactly when
the identifier is live, and leaves the table as it was. -/
theorem checkId_six_digits (rows : List String) (id : String) (h : isSixDigits id = true) :
    (checkId activeIds rows id).response = .idExists (decide (id ∈ rows)) ∧
    (checkId activeIds rows id).store = rows ∧
    (checkId activeIds rows id).queries = [.select id] := by
  rw [checkId_activeIds rows id h]
  exact ⟨rfl, rfl, rfl⟩

/-- The handler of `/check-id/:id` on an identifier that one of the two validators
refuses, on any pool: status 400 with the non-empty list of validation errors, and no
statement sent. -/
theorem checkId_rejected {σ : Type} (P : Pool σ) (s : σ) (id : String)
    (h : isLength id 6 6 = false ∨ isNumeric id = false) :
    (checkId P s id).response = .errors 400 (validationErrors id) ∧
    validationErrors id ≠ [] ∧ (checkId P s id).store = s ∧ (checkId P s id).queries = [] := by
  have hne : validationErrors id ≠ [] := by
    unfold validationErrors
    rcases h with h | h <;> simp [h]
  have hemp : (validationErrors id).isEmpty = false := by
    cases hv : validationErrors id with
    | nil => exact absurd hv hne
    | cons a t => rfl
  simp [checkId, hemp, hne]

/-- The two malformed identifiers of the specification are refused before any statement
is sent. -/
theorem checkId_examples_rejected :
    checkId activeIds ["482913"] "12a456" =
      ⟨.errors 400 [⟨"12a456", "Invalid value", "id", "params"⟩], ["482913"], []⟩ ∧
    checkId activeIds ["482913"] "12345" =
      ⟨.errors 400 [⟨"12345", "Invalid value", "id", "params"⟩], ["482913"], []⟩ := by
  decide

/-- A variation selector is not counted by `isLength`: five digits followed by U+FE0F
fail both validators, and the list of errors has two entries. -/
theorem checkId_variation_selector :
    (validationErrors ("12345".push (Char.ofNat 0xFE0F))).length = 2 ∧
    (checkId activeIds ["482913"] ("12345".push (Char.ofNat 0xFE0F))).queries = [] := by
  decide

/-- C6 (format rejection), evaluated where the code departs from it. The string `12.345`
is six characters of which one is a point, so it is not six decimal digits; `isLength`
accepts its length and `isNumeric`, called without `no_symbols`, accepts a decimal
point, so the chain reports no error: the handler sends the select to the store and
answers 200 with `idExists: false` instead of 400. The same holds for a leading sign,
as in `+12345` and `-12345`. -/
theorem checkId_accepts_non_digits :
    isSixDigits "12.345" = false ∧ validationErrors "12.345" = [] ∧
    checkId activeIds ["482913"] "12.345" =
      ⟨.idExists false, ["482913"], [.select "12.345"]⟩ ∧
    checkId activeIds ["482913"] "+12345" =
      ⟨.idExists false, ["482913"], [.select "+12345"]⟩ ∧
    checkId activeIds ["482913"] "-12345" =
      ⟨.idExists false, ["482913"], [.select "-12345"]⟩ := by
  decide

end Server

/-! # The persistence worker: proofs -/

namespace DbWorker

theorem eraseIdx_concat_length {α : Type} (l : List α) (a : α) :
    (l ++ [a]).eraseIdx l.length = l := by
  rw [List.eraseIdx_append_of_length_le (Nat.le_refl _)]
  simp

theorem run_cons (w : Worker) (e : Event) (es : List Event) :
    run w (e :: es) = (step w e).bind (fun w' => run w' es) := by
  simp only [run]
  cases step w e <;> rfl

theorem run_append (w : Worker) (es1 es2 : List Event) :
    run w (es1 ++ es2) = (run w es1).bind (fun w' => run w' es2) := by
  induction es1 generalizing w with
  | nil => rfl
  | cons e es ih =>
    simp only [List.cons_append, run_cons]
    cases step w e with
    | none => rfl
    | some w' => simpa using ih w'

/-! ## Order of the results (C8) -/

theorem orderly_step (w w1 : Worker) (e : Event) (ho : orderlyEvent w e = true)
    (hs : step w e = some w1) :
    w1.posted ++ (outstanding w1).map successResult =
      w.posted ++ (outstanding w ++ delivered [e]).map successResult ∧
    w1.stored ++ outstanding w1 = w.stored ++ (outstanding w ++ delivered [e]) := by
  cases e with
  | message chunk startError =>
    simp only [orderlyEvent, Bool.and_eq_true, Bool.or_eq_true, Option.isNone_iff_eq_none,
      List.isEmpty_iff] at ho
    obtain ⟨hdb, hse⟩ := ho
    subst hse
    cases hd : w.db with
    | none =>
      simp only [step, openDatabase, hd, Option.some.injEq] at hs
      subst hs
      simp [outstanding, delivered]
    | some handle =>
      have hop : w.opening = [] := by
        rcases hdb with h | h
        · rw [hd] at h
          cases h
        · exact h
      simp only [step, openDatabase, hd, saveChunk, Option.some.injEq] at hs
      subst hs
      simp [outstanding, delivered, hop]
  | openSuccess i handle startError =>
    simp only [orderlyEvent, Bool.and_eq_true, beq_iff_eq, Option.isNone_iff_eq_none] at ho
    obtain ⟨hi, hse⟩ := ho
    subst hi hse
    cases hop : w.opening with
    | nil => simp [step, hop] at hs
    | cons c rest =>
      simp only [step, hop, List.getElem?_cons_zero, saveChunk, Option.some.injEq,
        List.eraseIdx_cons_zero] at hs
      subst hs
      simp [outstanding, delivered, hop]
  | openError i error => simp [orderlyEvent] at ho
  | addSuccess i =>
    simp only [orderlyEvent, beq_iff_eq] at ho
    subst ho
    cases had : w.adding with
    | nil => simp [step, had] at hs
    | cons p rest =>
      obtain ⟨h, c⟩ := p
      simp only [step, had, List.getElem?_cons_zero, postMessage, Option.some.injEq,
        List.eraseIdx_cons_zero] at hs
      subst hs
      simp [outstanding, delivered, had]
  | addError i error => simp [orderlyEvent] at ho

theorem orderly_run (es : List Event) (w : Worker) (ho : orderly w es = true) :
    ∃ w', run w es = some w' ∧
      w'.posted ++ (outstanding w').map successResult =
        w.posted ++ (outstanding w ++ delivered es).map successResult ∧
      w'.stored ++ outstanding w' = w.stored ++ (outstanding w ++ delivered es) := by
  induction es generalizing w with
  | nil => exact ⟨w, rfl, by simp [delivered], by simp [delivered]⟩
  | cons e es ih =>
    simp only [orderly, Bool.and_eq_true] at ho
    obtain ⟨hoe, hrest⟩ := ho
    cases hs : step w e with
    | none => simp [hs] at hrest
    | some w1 =>
      simp only [hs] at hrest
      obtain ⟨w', hrun, hp, hst⟩ := ih w1 hrest
      obtain ⟨hp1, hst1⟩ := orderly_step w w1 e hoe hs
      have hd : delivered (e :: es) = delivered [e] ++ delivered es := by
        cases e <;> simp [delivered]
      refine ⟨w', by simp [run, hs, hrun], ?_, ?_⟩
      · rw [hp, List.map_append, ← List.append_assoc, hp1, hd]
        simp
      · rw [hst, ← List.append_assoc, hst1, hd]
        simp

/-! ## One save (C9) -/

/-- The worker after one save that resolves before anything else is delivered. -/
theorem run_saveEvents (w : Worker) (chunk : Chunk) (b : Behaviour) :
    run w (saveEvents w chunk b) = some
      { db := match w.db, b.openResult with
          | none, .ok handle => some handle
          | d, _ => d
        opening := w.opening
        adding := w.adding
        stored := match failure w b with
          | none => w.stored ++ [chunk]
          | some _ => w.stored
        posted := w.posted ++ [match failure w b with
          | none => successResult chunk
          | some error => failureResult error]
        opens := match w.db with
          | none => w.opens + 1
          | some _ => w.opens } := by
  obtain ⟨db, opening, adding, stored, posted, opens⟩ := w
  obtain ⟨openResult, startError, addError⟩ := b
  cases db with
  | some handle =>
    cases startError with
    | some e => simp [saveEvents, addEvents, run, step, openDatabase, saveChunk, postMessage, failure]
    | none =>
      cases addError with
      | some e =>
        simp [saveEvents, addEvents, run, step, openDatabase, saveChunk, postMessage, failure,
          eraseIdx_concat_length]
      | none =>
        simp [saveEvents, addEvents, run, step, openDatabase, saveChunk, postMessage, failure,
          eraseIdx_concat_length]
  | none =>
    cases openResult with
    | error e =>
      simp [saveEvents, run, step, openDatabase, postMessage, failure, eraseIdx_concat_length]
    | ok handle =>
      cases startError with
      | some e =>
        simp [saveEvents, addEvents, run, step, openDatabase, saveChunk, postMessage, failure,
          eraseIdx_concat_length]
      | none =>
        cases addError with
        | some e =>
          simp [saveEvents, addEvents, run, step, openDatabase, saveChunk, postMessage,
            failure, eraseIdx_concat_length]
        | none =>
          simp [saveEvents, addEvents, run, step, openDatabase, saveChunk, postMessage,
            failure, eraseIdx_concat_length]

/-! ## The result message (C7) -/

/-- What one delivery posts: nothing, the message of line 43 for a chunk, or the message
of line 45, which has the properties `success` and `error` only. -/
theorem step_posted (w w' : Worker) (e : Event) (hs : step w e = some w') :
    w'.posted = w.posted ∨ (∃ chunk, w'.posted = w.posted ++ [successResult chunk]) ∨
      ∃ error, w'.posted = w.posted ++ [failureResult error] := by
  obtain ⟨db, opening, adding, stored, posted, opens⟩ := w
  cases e with
  | message chunk startError =>
    cases db <;> cases startError <;>
      simp [step, openDatabase, saveChunk, postMessage] at hs <;> subst hs <;> simp
  | openSuccess i handle startError =>
    simp only [step] at hs
    cases hi : opening[i]? with
    | none => simp [hi] at hs
    | some c =>
      cases startError <;> simp [hi, saveChunk, postMessage] at hs <;> subst hs <;> simp
  | openError i error =>
    simp only [step] at hs
    cases hi : opening[i]? with
    | none => simp [hi] at hs
    | some c => simp [hi, postMessage] at hs; subst hs; simp
  | addSuccess i =>
    simp only [step] at hs
    cases hi : adding[i]? with
    | none => simp [hi] at hs
    | some p => simp [hi, postMessage] at hs; subst hs; simp
  | addError i error =>
    simp only [step] at hs
    cases hi : adding[i]? with
    | none => simp [hi] at hs
    | some p => simp [hi, postMessage] at hs; subst hs; simp

/-- C7 (the result identifies the chunk), evaluated. For the chunk 3 of `a.bin`: when the
save succeeds the posted message is `success: true` with `fileName` `a.bin` and `index`
3 and no `error`; when the add request fails, and when the open request fails, the
posted message is `success: false` with the error text and has neither `fileName` nor
`index`, against the claim that a failure result still carries both. -/
theorem failure_result_has_no_chunk_identity :
    (run (init []) [.message ⟨"a.bin", 3, [9]⟩ none, .openSuccess 0 7 none,
      .addSuccess 0]).map (fun w => w.posted)
      = some [⟨true, some "a.bin", some 3, none⟩] ∧
    (run (init []) [.message ⟨"a.bin", 3, [9]⟩ none, .openSuccess 0 7 none,
      .addError 0 "QuotaExceededError"]).map (fun w => w.posted)
      = some [⟨false, none, none, some "QuotaExceededError"⟩] ∧
    (run (init []) [.message ⟨"a.bin", 3, [9]⟩ none,
      .openError 0 "VersionError"]).map (fun w => w.posted)
      = some [⟨false, none, none, some "VersionError"⟩] := by
  decide

/-! ## Order of the results (C8), continued -/

/-- C8 as stated fails: two messages delivered one after the other, with `db` set and
the first save still pending, leave two saves outstanding at once; the add request of
the second chunk is made before that of the first is answered, and nothing is posted
yet. It is not the case that at most one save is outstanding at any time. -/
theorem second_save_starts_before_first_resolves :
    (run (init []) [.message chunkA0 none, .openSuccess 0 7 none, .addSuccess 0,
      .message chunkA1 none, .message chunkA2 none]).map
        (fun w => (w.adding, w.posted))
      = some ([(7, chunkA1), (7, chunkA2)], [successResult chunkA0]) ∧
    ¬ (∀ (es : List Event) (w : Worker), run (init []) es = some w →
        (outstanding w).length ≤ 1) := by
  refine ⟨by decide, fun h => ?_⟩
  have := h [.message chunkA0 none, .openSuccess 0 7 none, .addSuccess 0,
    .message chunkA1 none, .message chunkA2 none]
    ⟨some 7, [], [(7, chunkA1), (7, chunkA2)], [chunkA0], [successResult chunkA0], 1⟩
    (by decide)
  simp [outstanding] at this

/-- The condition on the arrival of messages cannot be dropped: two messages arrive before
the store is open, so each calls `indexedDB.open`; a third arrives after the first open
request has succeeded and before the second has. With every request answered oldest
first, the result of the third chunk is posted before that of the second, and `db` is
assigned twice. -/
theorem results_out_of_order_at_startup :
    (run (init []) [.message chunkA0 none, .message chunkA1 none, .openSuccess 0 7 none,
      .message chunkA2 none, .openSuccess 0 8 none, .addSuccess 0, .addSuccess 0,
      .addSuccess 0]).map (fun w => (w.posted, w.db, w.opens))
      = some ([successResult chunkA0, successResult chunkA2, successResult chunkA1],
          some 8, 2) := by
  decide

/-- C8 amended. (1) In every state the worker starts the save of a chunk at the delivery
of its message, whatever is outstanding: the delivery is always accepted, adds one
outstanding save and posts nothing. (2) In every run in which all requests succeed,
IndexedDB answers its open requests and its add requests oldest first, and no message
arrives while `db` is set and an open request is still pending: the messages posted,
followed by the results owed for the outstanding saves, are the success results of the
chunks in order of arrival, and likewise for the records written; so when no save is
outstanding at the start and at the end, the results posted during the run are the
success results of the chunks delivered, in the order 1..n of their arrival, and the
chunks are stored in that order. -/
theorem results_in_arrival_order :
    (∀ (w : Worker) (chunk : Chunk), ∃ w', step w (.message chunk none) = some w' ∧
      (outstanding w').length = (outstanding w).length + 1 ∧ w'.posted = w.posted) ∧
    (∀ (w : Worker) (es : List Event), orderly w es = true →
      ∃ w', run w es = some w' ∧
        w'.posted ++ (outstanding w').map successResult =
          w.posted ++ (outstanding w ++ delivered es).map successResult ∧
        w'.stored ++ outstanding w' = w.stored ++ (outstanding w ++ delivered es) ∧
        (outstanding w = [] → outstanding w' = [] →
          w'.posted = w.posted ++ (delivered es).map successResult ∧
          w'.stored = w.stored ++ delivered es)) := by
  constructor
  · intro w chunk
    obtain ⟨db, opening, adding, stored, posted, opens⟩ := w
    cases db with
    | none => simp [step, openDatabase, outstanding]; omega
    | some handle => simp [step, openDatabase, saveChunk, outstanding]; omega
  · intro w es ho
    obtain ⟨w', hrun, hp, hst⟩ := orderly_run es w ho
    refine ⟨w', hrun, hp, hst, fun h0 h1 => ?_⟩
    rw [h0, h1] at hp hst
    simpa using And.intro hp hst

/-- C8 amended, at a concrete input: three chunks, the second and third delivered while
the save before is still pending; the results are posted in the order of arrival. -/
theorem results_in_arrival_order_witness :
    ∃ w', run (init []) [.message chunkA0 none, .openSuccess 0 7 none,
        .message chunkA1 none, .message chunkA2 none, .addSuccess 0, .addSuccess 0,
        .addSuccess 0] = some w' ∧
      w'.posted = [successResult chunkA0, successResult chunkA1, successResult chunkA2] ∧
      w'.stored = [chunkA0, chunkA1, chunkA2] := by
  obtain ⟨w', hrun, _, _, h⟩ := results_in_arrival_order.2 (init [])
    [.message chunkA0 none, .openSuccess 0 7 none, .message chunkA1 none,
      .message chunkA2 none, .addSuccess 0, .addSuccess 0, .addSuccess 0] (by decide)
  have hout : outstanding w' = [] := by
    have : run (init []) [.message chunkA0 none, .openSuccess 0 7 none,
        .message chunkA1 none, .message chunkA2 none, .addSuccess 0, .addSuccess 0,
        .addSuccess 0] = some ⟨some 7, [], [], [chunkA0, chunkA1, chunkA2],
          [successResult chunkA0, successResult chunkA1, successResult chunkA2], 1⟩ := by
      decide
    rw [this] at hrun
    cases hrun
    rfl
  exact ⟨w', hrun, h rfl hout⟩

/-! ## Isolated failure (C9) -/

/-- C9 as stated fails: on a worker whose `db` is unset, a save whose open request
succeeds with handle 7 and whose add request fails is a failed save, and it leaves `db`
set to 7: the variable is not as it was before the failed save. -/
theorem failed_save_may_set_db :
    (init []).db = none ∧
    failure (init []) ⟨.ok 7, none, some "QuotaExceededError"⟩ = some "QuotaExceededError" ∧
    (run (init []) (saveEvents (init []) chunkA0
      ⟨.ok 7, none, some "QuotaExceededError"⟩)).map (fun w => (w.db, w.posted))
      = some (some 7, [failureResult "QuotaExceededError"]) := by
  decide

/-- A save that resolves before anything else is delivered, and fails: the worker posts
one failure message, the records stored and the pending requests of other saves are as
before, a handle held in `db` before is the one held after, and a next save of the same
kind posts the success result of its chunk and stores it when the store accepts it. -/
theorem failed_save_alone (w : Worker) (chunk : Chunk) (b : Behaviour) (error : String)
    (hfail : failure w b = some error) :
    ∃ w', run w (saveEvents w chunk b) = some w' ∧
      w'.posted = w.posted ++ [failureResult error] ∧
      w'.stored = w.stored ∧ w'.opening = w.opening ∧ w'.adding = w.adding ∧
      (∀ handle, w.db = some handle → w'.db = some handle) ∧
      (w.db = none →
        w'.db = none ∨ ∃ handle, b.openResult = .ok handle ∧ w'.db = some handle) := by
  refine ⟨_, run_saveEvents w chunk b, by simp [hfail], by simp [hfail], rfl, rfl, ?_, ?_⟩
  · intro handle hd
    simp [hd]
  · intro hd
    cases ho : b.openResult with
    | error e => left; simp [hd, ho]
    | ok handle => right; exact ⟨handle, rfl, by simp [hd, ho]⟩

theorem message_accepted (w : Worker) (chunk : Chunk) (startError : Option String) :
    ∃ w', step w (.message chunk startError) = some w' := by
  obtain ⟨db, opening, adding, stored, posted, opens⟩ := w
  cases db <;> simp [step, openDatabase]

theorem next_save_alone (w : Worker) (next : Chunk) (b : Behaviour) :
    ∃ w', run w (saveEvents w next b) = some w' ∧
      w'.posted = w.posted ++ [match failure w b with
        | none => successResult next
        | some error => failureResult error] ∧
      (failure w b = none →
        w'.posted = w.posted ++ [successResult next] ∧ w'.stored = w.stored ++ [next]) := by
  refine ⟨_, run_saveEvents w next b, rfl, fun h => ?_⟩
  simp [h]

theorem add_accepted (v : Worker) (j handle : Nat) (next : Chunk)
    (h : v.adding[j]? = some (handle, next)) :
    ∃ v', step v (.addSuccess j) = some v' ∧
      v'.posted = v.posted ++ [successResult next] ∧ v'.stored = v.stored ++ [next] := by
  simp [step, h, postMessage]

/-- The variable `db` is assigned only when an open request succeeds (line 12); no
delivery clears it. -/
theorem db_assigned_by_open_success (v v' : Worker) (ev : Event) (hs : step v ev = some v') :
    v'.db = v.db ∨ ∃ i handle startError, ev = .openSuccess i handle startError ∧
      v'.db = some handle := by
  obtain ⟨db, opening, adding, stored, posted, opens⟩ := v
  cases ev with
  | message chunk startError =>
    left
    cases db <;> cases startError <;>
      simp [step, openDatabase, saveChunk, postMessage] at hs <;> subst hs <;> rfl
  | openSuccess i handle startError =>
    right
    simp only [step] at hs
    cases hi : opening[i]? with
    | none => simp [hi] at hs
    | some c =>
      refine ⟨i, handle, startError, rfl, ?_⟩
      cases startError <;> simp [hi, saveChunk, postMessage] at hs <;> subst hs <;> rfl
  | openError i error =>
    left
    simp only [step] at hs
    cases hi : opening[i]? with
    | none => simp [hi] at hs
    | some c => simp [hi, postMessage] at hs; subst hs; rfl
  | addSuccess i =>
    left
    simp only [step] at hs
    cases hi : adding[i]? with
    | none => simp [hi] at hs
    | some p => simp [hi, postMessage] at hs; subst hs; rfl
  | addError i error =>
    left
    simp only [step] at hs
    cases hi : adding[i]? with
    | none => simp [hi] at hs
    | some p => simp [hi, postMessage] at hs; subst hs; rfl

/-- C9 amended. In every worker state, whatever other saves are pending, and for every
chunk whose save fails with `error` (setting up the add throws, its open request fails,
or its add request fails), at the delivery that makes it fail: the worker accepts the
delivery and posts exactly one failure message with that error text; the records
stored are unchanged; the pending requests of all other saves are unchanged; no store is
opened; and `db` is as it was, unless the failure comes right after the success of this
save's own open request, in which case an unset `db` holds the handle of that open.
In any state `db` is assigned only by the success of an open request and never cleared,
so a save that fails after its open request has succeeded leaves `db` set by that open.
The worker stays usable: it accepts every later message; a next save that resolves
before anything else is delivered posts a result that depends only on how the store
treats that save, and when the store accepts it the success result of that chunk is
posted and the chunk stored; and in any state a pending add that the store accepts
posts the success result of its chunk and stores the chunk. -/
theorem failed_save_isolated (w : Worker) (ev : Event) (chunk : Chunk) (error : String)
    (hfail : failing w ev = some (chunk, error)) :
    ∃ w', step w ev = some w' ∧
      w'.posted = w.posted ++ [failureResult error] ∧
      w'.stored = w.stored ∧
      (w'.opening, w'.adding) = remaining w ev ∧
      w'.opens = w.opens ∧
      ((∀ i handle startError, ev ≠ .openSuccess i handle startError) → w'.db = w.db) ∧
      (∀ i handle startError, ev = .openSuccess i handle startError → w.db = none →
        w'.db = some handle) ∧
      (∀ (next : Chunk) (startError : Option String),
        ∃ w'', step w' (.message next startError) = some w'') ∧
      (∀ (next : Chunk) (b : Behaviour), ∃ w'', run w' (saveEvents w' next b) = some w'' ∧
        w''.posted = w'.posted ++ [match failure w' b with
          | none => successResult next
          | some error2 => failureResult error2] ∧
        (failure w' b = none →
          w''.posted = w'.posted ++ [successResult next] ∧
          w''.stored = w'.stored ++ [next])) ∧
      (∀ (v : Worker) (j handle : Nat) (next : Chunk), v.adding[j]? = some (handle, next) →
        ∃ v', step v (.addSuccess j) = some v' ∧
          v'.posted = v.posted ++ [successResult next] ∧ v'.stored = v.stored ++ [next]) ∧
      (∀ (v v' : Worker) (ev2 : Event), step v ev2 = some v' →
        v'.db = v.db ∨ ∃ i handle startError, ev2 = .openSuccess i handle startError ∧
          v'.db = some handle) := by
  obtain ⟨db, opening, adding, stored, posted, opens⟩ := w
  cases ev with
  | message c startError =>
    cases startError with
    | none => simp [failing] at hfail
    | some e =>
      cases db with
      | none => simp [failing] at hfail
      | some handle =>
        simp only [failing, Option.some.injEq, Prod.mk.injEq] at hfail
        obtain ⟨rfl, rfl⟩ := hfail
        refine ⟨postMessage ⟨some handle, opening, adding, stored, posted, opens⟩
          (failureResult e), rfl, rfl, rfl, rfl, rfl, fun _ => rfl, ?_, ?_, ?_, ?_⟩
        · intro i2 h2 se2 e0
          cases e0
        · exact fun next se => message_accepted _ next se
        · exact fun next b => next_save_alone _ next b
        · exact ⟨add_accepted, db_assigned_by_open_success⟩
  | openSuccess i handle startError =>
    cases startError with
    | none => simp [failing] at hfail
    | some e =>
      cases hi : opening[i]? with
      | none => simp [failing, hi] at hfail
      | some c =>
        simp only [failing, hi, Option.map_some', Option.some.injEq, Prod.mk.injEq] at hfail
        obtain ⟨rfl, rfl⟩ := hfail
        refine ⟨postMessage ⟨some handle, opening.eraseIdx i, adding, stored, posted, opens⟩
          (failureResult e), by simp only [step, hi, saveChunk], rfl, rfl, rfl, rfl,
          fun hne => absurd rfl (hne i handle (some e)), ?_, ?_, ?_, ?_⟩
        · intro i2 h2 se2 e0 _
          cases e0
          rfl
        · exact fun next se => message_accepted _ next se
        · exact fun next b => next_save_alone _ next b
        · exact ⟨add_accepted, db_assigned_by_open_success⟩
  | openError i e =>
    cases hi : opening[i]? with
    | none => simp [failing, hi] at hfail
    | some c =>
      simp only [failing, hi, Option.map_some', Option.some.injEq, Prod.mk.injEq] at hfail
      obtain ⟨rfl, rfl⟩ := hfail
      refine ⟨postMessage ⟨db, opening.eraseIdx i, adding, stored, posted, opens⟩
        (failureResult e), by simp only [step, hi], rfl, rfl, rfl, rfl, fun _ => rfl,
        ?_, ?_, ?_, ?_⟩
      · intro i2 h2 se2 e0
        cases e0
      · exact fun next se => message_accepted _ next se
      · exact fun next b => next_save_alone _ next b
      · exact ⟨add_accepted, db_assigned_by_open_success⟩
  | addSuccess i => simp [failing] at hfail
  | addError i e =>
    cases hi : adding[i]? with
    | none => simp [failing, hi] at hfail
    | some p =>
      simp only [failing, hi, Option.map_some', Option.some.injEq, Prod.mk.injEq] at hfail
      obtain ⟨rfl, rfl⟩ := hfail
      refine ⟨postMessage ⟨db, opening, adding.eraseIdx i, stored, posted, opens⟩
        (failureResult e), by simp only [step, hi], rfl, rfl, rfl, rfl, fun _ => rfl,
        ?_, ?_, ?_, ?_⟩
      · intro i2 h2 se2 e0
        cases e0
      · exact fun next se => message_accepted _ next se
      · exact fun next b => next_save_alone _ next b
      · exact ⟨add_accepted, db_assigned_by_open_success⟩

/-- C9 amended, at a concrete input: the saves of two chunks are pending on handle 7, a
third awaits another open request, and the add of the older chunk fails; the failure is
posted, the other add and the open request stay pending, nothing is stored, `db` is 7. -/
theorem failed_save_isolated_witness :
    ∃ w', step ⟨some 7, [chunkA2], [(7, chunkA0), (7, chunkA1)], [], [], 2⟩
        (.addError 0 "QuotaExceededError") = some w' ∧
      w'.posted = [failureResult "QuotaExceededError"] ∧ w'.stored = [] ∧
      (w'.opening, w'.adding) = ([chunkA2], [(7, chunkA1)]) ∧ w'.db = some 7 := by
  obtain ⟨w', hstep, hp, hs, hrem, _, hdb, _⟩ :=
    failed_save_isolated ⟨some 7, [chunkA2], [(7, chunkA0), (7, chunkA1)], [], [], 2⟩
      (.addError 0 "QuotaExceededError") chunkA0 "QuotaExceededError" (by decide)
  exact ⟨w', hstep, hp, hs, hrem, hdb (fun i handle startError e => by cases e)⟩

/-! ## The store handle (C10) -/

theorem step_cached (w w' : Worker) (handle : Nat) (e : Event) (hd : w.db = some handle)
    (ho : w.opening = []) (hs : step w e = some w') :
    w'.db = some handle ∧ w'.opens = w.opens ∧ w'.opening = [] ∧
      ∀ p ∈ w'.adding, p ∈ w.adding ∨ p.1 = handle := by
  obtain ⟨db, opening, adding, stored, posted, opens⟩ := w
  simp only at hd ho
  subst hd ho
  cases e with
  | message chunk startError =>
    cases startError with
    | none =>
      simp [step, openDatabase, saveChunk] at hs
      subst hs
      simp only [true_and]
      intro p hp
      rcases List.mem_append.mp hp with h | h
      · exact Or.inl h
      · simp only [List.mem_singleton] at h
        exact Or.inr (by rw [h])
    | some error =>
      simp [step, openDatabase, saveChunk, postMessage] at hs
      subst hs
      simp only [true_and]
      exact fun p hp => Or.inl hp
  | openSuccess i h2 startError => simp [step] at hs
  | openError i error => simp [step] at hs
  | addSuccess i =>
    simp only [step] at hs
    cases hi : adding[i]? with
    | none => simp [hi] at hs
    | some p =>
      simp [hi, postMessage] at hs
      subst hs
      simp only [true_and]
      exact fun q hq => Or.inl (List.mem_of_mem_eraseIdx hq)
  | addError i error =>
    simp only [step] at hs
    cases hi : adding[i]? with
    | none => simp [hi] at hs
    | some p =>
      simp [hi, postMessage] at hs
      subst hs
      simp only [true_and]
      exact fun q hq => Or.inl (List.mem_of_mem_eraseIdx hq)

theorem run_cached (es : List Event) (w w' : Worker) (handle : Nat) (hd : w.db = some handle)
    (ho : w.opening = []) (hs : run w es = some w') :
    w'.db = some handle ∧ w'.opens = w.opens ∧ w'.opening = [] ∧
      ∀ p ∈ w'.adding, p ∈ w.adding ∨ p.1 = handle := by
  induction es generalizing w with
  | nil =>
    simp only [run, Option.some.injEq] at hs
    subst hs
    exact ⟨hd, rfl, ho, fun p hp => Or.inl hp⟩
  | cons e es ih =>
    simp only [run] at hs
    cases h1 : step w e with
    | none => simp [h1] at hs
    | some w1 =>
      simp only [h1] at hs
      obtain ⟨a1, a2, a3, a4⟩ := step_cached w w1 handle e hd ho h1
      obtain ⟨b1, b2, b3, b4⟩ := ih w1 a1 a3 hs
      refine ⟨b1, b2.trans a2, b3, fun p hp => ?_⟩
      rcases b4 p hp with h | h
      · exact a4 p h
      · exact Or.inr h

/-- After a failed open request `db` stays unset, and the message of the next chunk calls
`indexedDB.open` again: two calls. -/
theorem store_opened_again_after_failed_open :
    (run (init []) [.message chunkA0 none, .openError 0 "VersionError",
      .message chunkA1 none]).map (fun w => (w.db, w.opens)) = some (none, 2) := by
  decide

/-- What the guard of line 5 achieves. The worker starts with `db` unset and no call of
`indexedDB.open`; a message that finds `db` unset calls `indexedDB.open` once and leaves
the save waiting for the answer, and no other delivery calls it. From a state in which
`db` holds a handle and no open request is pending, through every sequence of
deliveries `db` holds that same handle, `indexedDB.open` is not called again, each call
of `openDatabase` resolves to that handle without a new request, and every add request
made since is made on that handle. -/
theorem handle_cached_once_open :
    (∀ stored : List Chunk, (init stored).db = none ∧ (init stored).opens = 0) ∧
    (∀ (w : Worker) (chunk : Chunk) (startError : Option String), w.db = none →
      ∃ w', step w (.message chunk startError) = some w' ∧ w'.opens = w.opens + 1 ∧
        w'.opening = w.opening ++ [chunk] ∧ w'.db = none ∧ w'.posted = w.posted) ∧
    (∀ (w w' : Worker) (e : Event), step w e = some w' →
      w'.opens = w.opens ∨ (w.db = none ∧ ∃ chunk startError, e = .message chunk startError)) ∧
    (∀ (w w' : Worker) (handle : Nat) (es : List Event), w.db = some handle →
      w.opening = [] → run w es = some w' →
        w'.db = some handle ∧ w'.opens = w.opens ∧ w'.opening = [] ∧
        (∀ chunk, openDatabase w' chunk = (w', some handle)) ∧
        ∀ p ∈ w'.adding, p ∈ w.adding ∨ p.1 = handle) := by
  refine ⟨fun stored => ⟨rfl, rfl⟩, ?_, ?_, ?_⟩
  · intro w chunk startError hd
    obtain ⟨db, opening, adding, stored, posted, opens⟩ := w
    simp only at hd
    subst hd
    simp [step, openDatabase]
  · intro w w' e hs
    obtain ⟨db, opening, adding, stored, posted, opens⟩ := w
    cases e with
    | message chunk startError =>
      cases db with
      | none => exact Or.inr ⟨rfl, chunk, startError, rfl⟩
      | some handle =>
        left
        cases startError <;> simp [step, openDatabase, saveChunk, postMessage] at hs <;>
          subst hs <;> rfl
    | openSuccess i handle startError =>
      left
      simp only [step] at hs
      cases hi : opening[i]? with
      | none => simp [hi] at hs
      | some c =>
        cases startError <;> simp [hi, saveChunk, postMessage] at hs <;> subst hs <;> rfl
    | openError i error =>
      left
      simp only [step] at hs
      cases hi : opening[i]? with
      | none => simp [hi] at hs
      | some c => simp [hi, postMessage] at hs; subst hs; rfl
    | addSuccess i =>
      left
      simp only [step] at hs
      cases hi : adding[i]? with
      | none => simp [hi] at hs
      | some p => simp [hi, postMessage] at hs; subst hs; rfl
    | addError i error =>
      left
      simp only [step] at hs
      cases hi : adding[i]? with
      | none => simp [hi] at hs
      | some p => simp [hi, postMessage] at hs; subst hs; rfl
  · intro w w' handle es hd ho hs
    obtain ⟨h1, h2, h3, h4⟩ := run_cached es w w' handle hd ho hs
    refine ⟨h1, h2, h3, fun chunk => ?_, h4⟩
    simp [openDatabase, h1]

/-- The guard at a concrete input: after the first chunk has opened the store with handle
7, two more chunks are saved; `db` is 7 throughout and `indexedDB.open` was called
once. -/
theorem handle_cached_once_open_example :
    run ⟨some 7, [], [(7, chunkA0)], [], [], 1⟩
      [.addSuccess 0, .message chunkA1 none, .message chunkA2 none, .addSuccess 0]
      = some ⟨some 7, [], [(7, chunkA2)], [chunkA0, chunkA1],
          [successResult chunkA0, successResult chunkA1], 1⟩ ∧
    (⟨some 7, [], [(7, chunkA2)], [chunkA0, chunkA1],
      [successResult chunkA0, successResult chunkA1], 1⟩ : Worker).db = some 7 ∧
    (⟨some 7, [], [(7, chunkA2)], [chunkA0, chunkA1],
      [successResult chunkA0, successResult chunkA1], 1⟩ : Worker).opens = 1 :=
  have hrun : run ⟨some 7, [], [(7, chunkA0)], [], [], 1⟩
      [.addSuccess 0, .message chunkA1 none, .message chunkA2 none, .addSuccess 0]
      = some ⟨some 7, [], [(7, chunkA2)], [chunkA0, chunkA1],
          [successResult chunkA0, successResult chunkA1], 1⟩ := by decide
  have h := handle_cached_once_open.2.2.2 ⟨some 7, [], [(7, chunkA0)], [], [], 1⟩ _ 7
    [.addSuccess 0, .message chunkA1 none, .message chunkA2 none, .addSuccess 0] rfl rfl hrun
  ⟨hrun, h.1, h.2.1⟩

/-- C10 (one store handle for the lifetime of the worker), evaluated where the code
departs from it. Three messages arrive on a fresh worker before the first open request
is answered: each finds `db` unset (line 5) and calls `indexedDB.open` (line 6), three
calls with no failed open. As the three requests succeed, line 12 assigns `db` three
times, to the handles 7, 8 and 9 in turn, and the three adds are made on three
handles. The claim says that the store is opened at most once and that `db`, once set,
is never reassigned. -/
theorem store_opened_for_each_early_message :
    (run (init []) [.message chunkA0 none, .message chunkA1 none,
      .message chunkA2 none]).map (fun w => (w.db, w.opens, w.opening))
      = some (none, 3, [chunkA0, chunkA1, chunkA2]) ∧
    (run (init []) [.message chunkA0 none, .message chunkA1 none, .message chunkA2 none,
      .openSuccess 0 7 none]).map (fun w => (w.db, w.opens)) = some (some 7, 3) ∧
    (run (init []) [.message chunkA0 none, .message chunkA1 none, .message chunkA2 none,
      .openSuccess 0 7 none, .openSuccess 0 8 none]).map (fun w => (w.db, w.opens))
      = some (some 8, 3) ∧
    (run (init []) [.message chunkA0 none, .message chunkA1 none, .message chunkA2 none,
      .openSuccess 0 7 none, .openSuccess 0 8 none,
      .openSuccess 0 9 none]).map (fun w => (w.db, w.opens, w.adding))
      = some (some 9, 3, [(7, chunkA0), (8, chunkA1), (9, chunkA2)]) := by
  decide

end DbWorker
